import Mathlib

/-!
Shallow embedding of `binary_search_tree_rs` (`src/lib.rs`): a red-black tree
whose nodes are threaded into a doubly linked order chain, stored in a slotmap
arena addressed by stable handles.

Modelling conventions:
* The slotmap `SlotMap<NodeKey, Node<T>>` is a `List (Option (Node T))`;
  a handle (`NodeKey`) is the `Nat` index of its slot.  `insert` appends a new
  slot (handles are never reused, which models the generational freshness of
  slotmap keys: a removed handle never aliases a later node); `remove` clears
  the slot in place.
* Rust panics (`unwrap` on a dead handle or `None`, explicit `panic!`,
  `debug_assert!`) are modelled as `Option` failure (`none`); `create_root`
  additionally returns the untouched state on its assertion failure.
* The two `while` loops (`insert_rebalance`, `fix_double_black`) and the
  descending/chasing walks take explicit fuel; exhausted fuel is `none`.
-/

namespace BST

inductive Color where
  | RED
  | BLACK
deriving DecidableEq, Repr

inductive NodeType where
  | LeftChild
  | RightChild
  | Orphan
deriving DecidableEq, Repr

structure Node (T : Type) where
  parent : Option Nat
  left : Option Nat
  right : Option Nat
  contents : T
  prev : Option Nat
  next : Option Nat
  color : Color
deriving Repr

/-- Mirrors `Node::new`: fresh nodes have no links and are RED. -/
def Node.new {T : Type} (contents : T) : Node T :=
  { parent := none, left := none, right := none
    contents := contents
    prev := none, next := none
    color := Color.RED }

/-- The tree: the slotmap of nodes plus the optional root handle. -/
structure Tree (T : Type) where
  nodes : List (Option (Node T))
  root : Option Nat
deriving Repr

namespace Tree

variable {T : Type}

/-- Mirrors `Tree::new`. -/
def new : Tree T := { nodes := [], root := none }

/-- Slotmap lookup: `some n` exactly when the handle is live. -/
def get (t : Tree T) (k : Nat) : Option (Node T) :=
  match t.nodes[k]? with
  | some s => s
  | none => none

/-- The set (as a list of indices) of live handles. -/
def liveKeys (t : Tree T) : List Nat :=
  (List.range t.nodes.length).filter (fun k => (t.get k).isSome)

/-- Mirrors `Tree::has_root`. -/
def has_root (t : Tree T) : Bool := t.root.isSome

/-- Overwrite the record at a (live) slot. -/
def updNode (t : Tree T) (k : Nat) (n : Node T) : Tree T :=
  { t with nodes := t.nodes.set k (some n) }

/-- Slotmap `insert`: the fresh handle is the index of the appended slot. -/
def insertNode (t : Tree T) (n : Node T) : Nat × Tree T :=
  (t.nodes.length, { t with nodes := t.nodes ++ [some n] })

/-- Slotmap `remove` (the Rust code ignores the returned record). -/
def remove (t : Tree T) (k : Nat) : Tree T :=
  { t with nodes := t.nodes.set k none }

/-! Getters and setters.  Each Rust accessor does `self.nodes.get(node).unwrap()`,
so it panics (here: `none`) on a dead handle; `get_color` is the one total
accessor. -/

def set_right (t : Tree T) (k : Nat) (right : Option Nat) : Option (Tree T) := do
  let n ← t.get k
  pure (t.updNode k { n with right := right })

def get_right (t : Tree T) (k : Nat) : Option (Option Nat) := do
  let n ← t.get k
  pure n.right

def set_left (t : Tree T) (k : Nat) (left : Option Nat) : Option (Tree T) := do
  let n ← t.get k
  pure (t.updNode k { n with left := left })

def get_left (t : Tree T) (k : Nat) : Option (Option Nat) := do
  let n ← t.get k
  pure n.left

def set_parent (t : Tree T) (k : Nat) (parent : Option Nat) : Option (Tree T) := do
  let n ← t.get k
  pure (t.updNode k { n with parent := parent })

def get_parent (t : Tree T) (k : Nat) : Option (Option Nat) := do
  let n ← t.get k
  pure n.parent

def set_prev (t : Tree T) (k : Nat) (prev : Option Nat) : Option (Tree T) := do
  let n ← t.get k
  pure (t.updNode k { n with prev := prev })

def get_prev (t : Tree T) (k : Nat) : Option (Option Nat) := do
  let n ← t.get k
  pure n.prev

def set_next (t : Tree T) (k : Nat) (next : Option Nat) : Option (Tree T) := do
  let n ← t.get k
  pure (t.updNode k { n with next := next })

def get_next (t : Tree T) (k : Nat) : Option (Option Nat) := do
  let n ← t.get k
  pure n.next

def set_color (t : Tree T) (k : Nat) (color : Color) : Option (Tree T) := do
  let n ← t.get k
  pure (t.updNode k { n with color := color })

/-- Mirrors `get_color`: BLACK for `none`, and BLACK again when the handle is
not live in the store (the `match self.nodes.get(...)` with a `None => BLACK`
arm); it never fails. -/
def get_color (t : Tree T) (k : Option Nat) : Color :=
  match k with
  | none => Color.BLACK
  | some k =>
    match t.get k with
    | some n => n.color
    | none => Color.BLACK

def set_contents (t : Tree T) (k : Nat) (contents : T) : Option (Tree T) := do
  let n ← t.get k
  pure (t.updNode k { n with contents := contents })

def get_contents (t : Tree T) (k : Nat) : Option T := do
  let n ← t.get k
  pure n.contents

/-- Mirrors `get_node_type`: left child, right child, or orphan. -/
def get_node_type (t : Tree T) (k : Nat) : Option NodeType := do
  let parent ← t.get_parent k
  match parent with
  | some p => do
    let l ← t.get_left p
    if l = some k then pure NodeType.LeftChild else pure NodeType.RightChild
  | none => pure NodeType.Orphan

/-- Mirrors `get_sibling`. -/
def get_sibling (t : Tree T) (k : Nat) : Option (Option Nat) := do
  let parent ← t.get_parent k
  let nt ← t.get_node_type k
  match nt with
  | NodeType.LeftChild => do
    let p ← parent
    t.get_right p
  | NodeType.RightChild => do
    let p ← parent
    t.get_left p
  | NodeType.Orphan => pure none

/-- Mirrors `get_uncle`. -/
def get_uncle (t : Tree T) (k : Nat) : Option (Option Nat) := do
  let parent ← t.get_parent k
  match parent with
  | some p => do
    let nt ← t.get_node_type p
    match nt with
    | NodeType.LeftChild => do
      let gp? ← t.get_parent p
      let gp ← gp?
      t.get_right gp
    | NodeType.RightChild => do
      let gp? ← t.get_parent p
      let gp ← gp?
      t.get_left gp
    | NodeType.Orphan => pure none
  | none => pure none

/-- Mirrors `left_rotate`. -/
def left_rotate (t : Tree T) (rotation_root : Nat) : Option (Tree T) := do
  let pivot? ← t.get_right rotation_root
  let pivot ← pivot?
  let pivot_left ← t.get_left pivot
  let parent ← t.get_parent rotation_root
  let t ← t.set_right rotation_root pivot_left
  let t ←
    match pivot_left with
    | some pl => t.set_parent pl (some rotation_root)
    | none => pure t
  let t ← t.set_parent pivot parent
  let nt ← t.get_node_type rotation_root
  let t ←
    match nt with
    | NodeType.LeftChild => do
      let p ← parent
      t.set_left p (some pivot)
    | NodeType.RightChild => do
      let p ← parent
      t.set_right p (some pivot)
    | NodeType.Orphan => pure { t with root := some pivot }
  let t ← t.set_left pivot (some rotation_root)
  t.set_parent rotation_root (some pivot)

/-- Mirrors `right_rotate`. -/
def right_rotate (t : Tree T) (rotation_root : Nat) : Option (Tree T) := do
  let pivot? ← t.get_left rotation_root
  let pivot ← pivot?
  let pivot_right ← t.get_right pivot
  let parent ← t.get_parent rotation_root
  let t ← t.set_left rotation_root pivot_right
  let t ←
    match pivot_right with
    | some pr => t.set_parent pr (some rotation_root)
    | none => pure t
  let t ← t.set_parent pivot parent
  let nt ← t.get_node_type rotation_root
  let t ←
    match nt with
    | NodeType.LeftChild => do
      let p ← parent
      t.set_left p (some pivot)
    | NodeType.RightChild => do
      let p ← parent
      t.set_right p (some pivot)
    | NodeType.Orphan => pure { t with root := some pivot }
  let t ← t.set_right pivot (some rotation_root)
  t.set_parent rotation_root (some pivot)

/-- Mirrors `swap_nodes`: exchange the tree roles of two handles. -/
def swap_nodes (t : Tree T) (node_1 node_2 : Nat) : Option (Tree T) := do
  let node_1_parent0 ← t.get_parent node_1
  let node_2_parent0 ← t.get_parent node_2
  let node_1_right ← t.get_right node_1
  let node_2_right ← t.get_right node_2
  let node_1_left ← t.get_left node_1
  let node_2_left ← t.get_left node_2
  -- Swap parents (substituting a self-reference when one is the other's child)
  let node_1_parent :=
    if node_1_parent0 = some node_2 then some node_1 else node_1_parent0
  let node_2_parent :=
    if node_1_parent0 = some node_2 then node_2_parent0
    else if node_2_parent0 = some node_1 then some node_2 else node_2_parent0
  let nt1 ← t.get_node_type node_1
  let t ←
    match nt1 with
    | NodeType.LeftChild => do
      let p ← node_1_parent
      t.set_left p (some node_2)
    | NodeType.RightChild => do
      let p ← node_1_parent
      t.set_right p (some node_2)
    | NodeType.Orphan => pure { t with root := some node_2 }
  let nt2 ← t.get_node_type node_2
  let t ←
    match nt2 with
    | NodeType.LeftChild => do
      let p ← node_2_parent
      t.set_left p (some node_1)
    | NodeType.RightChild => do
      let p ← node_2_parent
      t.set_right p (some node_1)
    | NodeType.Orphan => pure { t with root := some node_1 }
  let t ← t.set_parent node_1 node_2_parent
  let t ← t.set_parent node_2 node_1_parent
  -- Swap left children
  let t ←
    if node_2_left ≠ some node_1 then do
      let t ← t.set_left node_1 node_2_left
      match node_2_left with
      | some c => t.set_parent c (some node_1)
      | none => pure t
    else pure t
  let t ←
    if node_1_left ≠ some node_2 then do
      let t ← t.set_left node_2 node_1_left
      match node_1_left with
      | some c => t.set_parent c (some node_2)
      | none => pure t
    else pure t
  -- Swap right children
  let t ←
    if node_2_right ≠ some node_1 then do
      let t ← t.set_right node_1 node_2_right
      match node_2_right with
      | some c => t.set_parent c (some node_1)
      | none => pure t
    else pure t
  let t ←
    if node_1_right ≠ some node_2 then do
      let t ← t.set_right node_2 node_1_right
      match node_1_right with
      | some c => t.set_parent c (some node_2)
      | none => pure t
    else pure t
  -- Swap colors
  let node_1_color := t.get_color (some node_1)
  let t ← t.set_color node_1 (t.get_color (some node_2))
  t.set_color node_2 node_1_color

/-- Mirrors `insert_rebalance`: the `while parent-is-RED` loop, with explicit
fuel for the iteration count, followed by forcing the root BLACK. -/
def insert_rebalance : Nat → Tree T → Nat → Option (Tree T)
  | 0, _, _ => none
  | fuel+1, t, node => do
    let p? ← t.get_parent node
    if t.get_color p? = Color.RED then do
      let parent ← p?
      let gp? ← t.get_parent parent
      let grandparent ← gp?
      let uncle ← t.get_uncle node
      if t.get_color uncle = Color.RED then do
        let u ← uncle
        let t ← t.set_color u Color.BLACK
        let t ← t.set_color parent Color.BLACK
        let t ← t.set_color grandparent Color.RED
        insert_rebalance fuel t grandparent
      else do
        let parent_node_type ← t.get_node_type parent
        let node_nt ← t.get_node_type node
        let (t, node, parent) ←
          if node_nt ≠ parent_node_type then do
            let t ←
              if parent_node_type = NodeType.LeftChild then t.left_rotate parent
              else t.right_rotate parent
            let node := parent
            let p2? ← t.get_parent node
            let parent ← p2?
            pure (t, node, parent)
          else pure (t, node, parent)
        let t ← t.set_color parent Color.BLACK
        let t ← t.set_color grandparent Color.RED
        let pnt ← t.get_node_type parent
        let t ←
          if pnt = NodeType.LeftChild then t.right_rotate grandparent
          else t.left_rotate grandparent
        insert_rebalance fuel t node
    else do
      let r ← t.root
      t.set_color r Color.BLACK

/-- Mirrors `fix_double_black`: the `while Some(node) != self.root` loop with
explicit fuel; `break` is returning the current state, `continue` is the
recursive call. -/
def fix_double_black : Nat → Tree T → Nat → Option (Tree T)
  | 0, _, _ => none
  | fuel+1, t, node =>
    if t.root = some node then pure t
    else do
      let sibling ← t.get_sibling node
      let parent ← t.get_parent node
      match sibling with
      | none => do
        let p ← parent
        fix_double_black fuel t p
      | some s =>
        if t.get_color (some s) = Color.RED then do
          let p ← parent
          let t ← t.set_color p Color.RED
          let t ← t.set_color s Color.BLACK
          let nt ← t.get_node_type s
          let t ←
            match nt with
            | NodeType.LeftChild => t.right_rotate p
            | NodeType.RightChild => t.left_rotate p
            | NodeType.Orphan => none
          fix_double_black fuel t node
        else do
          let sl ← t.get_left s
          if t.get_color sl = Color.RED then do
            let left ← sl
            let nt ← t.get_node_type s
            let t ←
              match nt with
              | NodeType.LeftChild => do
                let t ← t.set_color left (t.get_color (some s))
                let t ← t.set_color s (t.get_color parent)
                let p ← parent
                t.right_rotate p
              | NodeType.RightChild => do
                let t ← t.set_color left (t.get_color parent)
                let t ← t.right_rotate s
                let p ← parent
                t.left_rotate p
              | NodeType.Orphan => none
            let p ← parent
            t.set_color p Color.BLACK
          else do
            let sr ← t.get_right s
            if t.get_color sr = Color.RED then do
              let right ← sr
              let nt ← t.get_node_type s
              let t ←
                match nt with
                | NodeType.LeftChild => do
                  let t ← t.set_color right (t.get_color parent)
                  let t ← t.left_rotate s
                  let p ← parent
                  t.right_rotate p
                | NodeType.RightChild => do
                  let t ← t.set_color right (t.get_color (some s))
                  let t ← t.set_color s (t.get_color parent)
                  let p ← parent
                  t.left_rotate p
                | NodeType.Orphan => none
              let p ← parent
              t.set_color p Color.BLACK
            else do
              let t ← t.set_color s Color.RED
              if t.get_color parent = Color.BLACK then do
                let p ← parent
                fix_double_black fuel t p
              else do
                let p ← parent
                t.set_color p Color.BLACK

/-- Mirrors `create_root`, including the `debug_assert!(!self.has_root())`: on a
tree that already has a root the assertion fires before anything is touched, so
the failure carries the unchanged state. -/
def create_root (t : Tree T) (value : T) : Except (Tree T) (Nat × Tree T) :=
  if t.has_root then Except.error t
  else
    let (root, t) := t.insertNode (Node.new value)
    match t.set_color root Color.BLACK with
    | some t => Except.ok (root, { t with root := some root })
    | none => Except.error t

/-- The part of `insert_after` before the `insert_rebalance` call: allocate the
RED node, attach it structurally, splice the order links. -/
def insert_after_place (t : Tree T) (existing_node : Nat) (value : T) :
    Option (Nat × Tree T) := do
  let (new_node, t) := t.insertNode (Node.new value)
  let existing_node_next ← t.get_next existing_node
  let r ← t.get_right existing_node
  let t ←
    if r = none then do
      let t ← t.set_right existing_node (some new_node)
      t.set_parent new_node (some existing_node)
    else do
      let nxt ← existing_node_next
      let t ← t.set_left nxt (some new_node)
      t.set_parent new_node existing_node_next
  let t ← t.set_next new_node existing_node_next
  let nn ← t.get_next new_node
  let t ←
    match nn with
    | some nxt => t.set_prev nxt (some new_node)
    | none => pure t
  let t ← t.set_prev new_node (some existing_node)
  let t ← t.set_next existing_node (some new_node)
  pure (new_node, t)

/-- Mirrors `insert_after`: placement and splice, then rebalance; returns the
new node's handle. -/
def insert_after (fuel : Nat) (t : Tree T) (existing_node : Nat) (value : T) :
    Option (Nat × Tree T) := do
  let (new_node, t) ← t.insert_after_place existing_node value
  let t ← insert_rebalance fuel t new_node
  pure (new_node, t)

/-- The part of `insert_before` before the `insert_rebalance` call. -/
def insert_before_place (t : Tree T) (existing_node : Nat) (value : T) :
    Option (Nat × Tree T) := do
  let (new_node, t) := t.insertNode (Node.new value)
  let existing_node_prev ← t.get_prev existing_node
  let l ← t.get_left existing_node
  let t ←
    if l = none then do
      let t ← t.set_left existing_node (some new_node)
      t.set_parent new_node (some existing_node)
    else do
      let prv ← existing_node_prev
      let t ← t.set_right prv (some new_node)
      t.set_parent new_node existing_node_prev
  let t ← t.set_prev new_node existing_node_prev
  let t ←
    match existing_node_prev with
    | some prv => t.set_next prv (some new_node)
    | none => pure t
  let t ← t.set_next new_node (some existing_node)
  let t ← t.set_prev existing_node (some new_node)
  pure (new_node, t)

/-- Mirrors `insert_before`. -/
def insert_before (fuel : Nat) (t : Tree T) (existing_node : Nat) (value : T) :
    Option (Nat × Tree T) := do
  let (new_node, t) ← t.insert_before_place existing_node value
  let t ← insert_rebalance fuel t new_node
  pure (new_node, t)

/-- Mirrors `get_replacement_node`; the two-children case is the
`panic!("Cannot find replacement node ...")`. -/
def get_replacement_node (t : Tree T) (node : Nat) : Option (Option Nat) := do
  let left ← t.get_left node
  let right ← t.get_right node
  if left.isSome && right.isSome then none
  else if left = none && right = none then pure none
  else if left.isSome then pure left
  else pure right

/-- Mirrors `update_order_for_deletion`. -/
def update_order_for_deletion (t : Tree T) (deleted_node : Nat) :
    Option (Tree T) := do
  let next ← t.get_next deleted_node
  let prev ← t.get_prev deleted_node
  let t ←
    match next with
    | some nk => t.set_prev nk prev
    | none => pure t
  match prev with
  | some pk => t.set_next pk next
  | none => pure t

/-- Mirrors `delete_node`. -/
def delete_node (fuel : Nat) (t : Tree T) (node : Nat) : Option (Tree T) := do
  let l ← t.get_left node
  let two ←
    match l with
    | none => pure false
    | some _ => do
      let r ← t.get_right node
      pure r.isSome
  let t ←
    if two then do
      let nxt? ← t.get_next node
      let nxt ← nxt?
      t.swap_nodes node nxt
    else pure t
  let replacement ← t.get_replacement_node node
  let both_black :=
    (t.get_color (some node) == Color.BLACK) && (t.get_color replacement == Color.BLACK)
  match replacement with
  | none =>
    -- The node is a leaf
    let t ←
      if t.root = some node then pure { t with root := none }
      else do
        let t ←
          if both_black then fix_double_black fuel t node
          else do
            let sibling ← t.get_sibling node
            match sibling with
            | some s => t.set_color s Color.RED
            | none => pure t
        let parent ← t.get_parent node
        let nt ← t.get_node_type node
        match nt with
        | NodeType.LeftChild => do
          let p ← parent
          t.set_left p none
        | NodeType.RightChild => do
          let p ← parent
          t.set_right p none
        | NodeType.Orphan => none
    let t ← t.update_order_for_deletion node
    pure (t.remove node)
  | some rep =>
    if t.root = some node then do
      let t ← t.swap_nodes node rep
      let t ← t.set_left rep none
      let t ← t.set_right rep none
      pure (t.remove node)
    else do
      let parent ← t.get_parent node
      let nt ← t.get_node_type node
      let t ←
        match nt with
        | NodeType.LeftChild => do
          let p ← parent
          t.set_left p (some rep)
        | NodeType.RightChild => do
          let p ← parent
          t.set_right p (some rep)
        | NodeType.Orphan => none
      let t ← t.set_parent rep parent
      let t ← t.update_order_for_deletion node
      let t := t.remove node
      if both_black then fix_double_black fuel t node
      else t.set_color rep Color.BLACK

/-- The descending loop of `get_leftmost_node`, with fuel. -/
def leftmost_from : Nat → Tree T → Nat → Option Nat
  | 0, _, _ => none
  | fuel+1, t, k => do
    let l ← t.get_left k
    match l with
    | none => pure k
    | some c => leftmost_from fuel t c

/-- Mirrors `get_leftmost_node`: the root, then repeatedly the left child. -/
def get_leftmost_node (fuel : Nat) (t : Tree T) : Option (Option Nat) :=
  match t.root with
  | none => pure none
  | some r => do
    let lm ← leftmost_from fuel t r
    pure (some lm)

/-- Left-to-right in-order walk of the tree structure (keys), with fuel; fails
on a dead handle or exhausted fuel.  This is the structural traversal the
spec's invariant 5 compares the order chain against. -/
def inorderWalk : Nat → Tree T → Option Nat → Option (List Nat)
  | 0, _, some _ => none
  | _, _, none => some []
  | fuel+1, t, some k => do
    let n ← t.get k
    let a ← inorderWalk fuel t n.left
    let b ← inorderWalk fuel t n.right
    pure (a ++ k :: b)

/-- Walk of the order chain: follow `next` (keys), as `get_nodes_order` does,
reading each visited record (so a dangling `next` handle is a failure exactly
like the `unwrap` in the test helper). -/
def chainWalk : Nat → Tree T → Option Nat → Option (List Nat)
  | 0, _, some _ => none
  | _, _, none => some []
  | fuel+1, t, some k => do
    let n ← t.get k
    let rest ← chainWalk fuel t n.next
    pure (k :: rest)

/-- Mirrors the repository's own `check_black_heights` test helper: nil counts
1, a mismatch between the two sides is a failure (the helper panics), RED
nodes do not add to the height. -/
def blackHeight : Nat → Tree T → Option Nat → Option Nat
  | 0, _, _ => none
  | _+1, _, none => some 1
  | fuel+1, t, some k => do
    let n ← t.get k
    let lh ← blackHeight fuel t n.left
    let rh ← blackHeight fuel t n.right
    if lh = rh then pure (if n.color = Color.RED then lh else lh + 1)
    else none

/-- Canonical fuel: handles are indices below `t.nodes.length`, and in a
well-formed tree every descending path visits distinct live slots, so this
bound suffices for all walks. -/
def wfFuel (t : Tree T) : Nat := t.nodes.length + 1

/-- Per-node well-formedness checks (spec §3 invariants 1-3, plus the
doubly-linked reading of the order chain): parent/child pointers are mutually
consistent, a parentless live node is the root, the two child slots differ,
no RED node has a RED child, the black height below the node is defined, and
`prev`/`next` are inverse to each other. -/
def checkNode (t : Tree T) (k : Nat) : Bool :=
  match t.get k with
  | none => true
  | some n =>
    (match n.parent with
     | some p =>
       match t.get p with
       | some np => np.left == some k || np.right == some k
       | none => false
     | none => t.root == some k) &&
    (match n.left with
     | some c =>
       match t.get c with
       | some nc => nc.parent == some k
       | none => false
     | none => true) &&
    (match n.right with
     | some c =>
       match t.get c with
       | some nc => nc.parent == some k
       | none => false
     | none => true) &&
    (!n.left.isSome || n.left != n.right) &&
    (n.color != Color.RED ||
      (t.get_color n.left == Color.BLACK && t.get_color n.right == Color.BLACK)) &&
    (blackHeight (wfFuel t) t (some k)).isSome &&
    (match n.prev with
     | some m =>
       match t.get m with
       | some nm => nm.next == some k
       | none => false
     | none => true) &&
    (match n.next with
     | some m =>
       match t.get m with
       | some nm => nm.prev == some k
       | none => false
     | none => true)

/-- Whole-tree well-formedness check (spec §3 invariants 1-5): the root is
parentless and BLACK, every live node passes `checkNode`, and the in-order
walk is defined, equals the chain walk from the leftmost node, and visits
exactly the live handles. -/
def checkTree (t : Tree T) : Bool :=
  (match t.root with
   | some r =>
     match t.get r with
     | some n => n.parent == none
     | none => false
   | none => true) &&
  (t.get_color t.root == Color.BLACK) &&
  (t.liveKeys.all fun k => checkNode t k) &&
  (match inorderWalk (wfFuel t) t t.root with
   | some L =>
     (match get_leftmost_node (wfFuel t) t with
      | some lm => chainWalk (wfFuel t) t lm == some L
      | none => false) &&
     decide (List.Perm L t.liveKeys)
   | none => false)

/-- The spec's invariants, as a proposition on the model state. -/
def WF (t : Tree T) : Prop := checkTree t = true

instance (t : Tree T) : Decidable (WF t) := by
  unfold WF; infer_instance

/-- Breadth-first walk (keys), mirroring the `get_level_order` test helper's
queue loop. -/
def levelWalk : Nat → Tree T → List Nat → Option (List Nat)
  | 0, _, _ :: _ => none
  | _, _, [] => some []
  | fuel+1, t, k :: q => do
    let n ← t.get k
    let q := q ++
      (match n.left with | some l => [l] | none => []) ++
      (match n.right with | some r => [r] | none => [])
    let rest ← levelWalk fuel t q
    pure (k :: rest)

/-- Contents of a list of handles, in order. -/
def valsOf (t : Tree T) (ks : List Nat) : Option (List T) :=
  ks.mapM t.get_contents

end Tree
namespace Validation

/-!
Concrete executions used for model validation: the repository's two reference
tests (`insertion_test` and `deletion_test`, which are also Scenario A and
Scenario B of spec §8).
-/

open Tree

def F : Nat := 64

def crOpt (t : Tree Nat) (v : Nat) : Option (Nat × Tree Nat) :=
  (t.create_root v).toOption

def scenarioA : Option (Tree Nat) := do
  let (seven, t) ← crOpt Tree.new 7
  let (six, t) ← insert_before F t seven 6
  let (five, t) ← insert_before F t six 5
  let (four, t) ← insert_before F t five 4
  let (three, t) ← insert_before F t four 3
  let (two, t) ← insert_before F t three 2
  let (_one, t) ← insert_before F t two 1
  pure t

def scenarioB : Option (Tree Nat × List Nat) := do
  let (seven, t) ← crOpt Tree.new 7
  let (three, t) ← insert_before F t seven 3
  let (eighteen, t) ← insert_after F t seven 18
  let (ten, t) ← insert_after F t seven 10
  let (twentytwo, t) ← insert_after F t eighteen 22
  let (_eight, t) ← insert_before F t ten 8
  let (eleven, t) ← insert_after F t ten 11
  let (_twentysix, t) ← insert_after F t twentytwo 26
  let (_two, t) ← insert_before F t three 2
  let (_six, t) ← insert_before F t seven 6
  let (_thirteen, t) ← insert_after F t eleven 13
  pure (t, [eighteen, eleven, three, ten, twentytwo])

def scenarioBAfterDeletes : Option (Tree Nat) := do
  let (t, ks) ← scenarioB
  match ks with
  | [a, b, c, d, e] => do
    let t ← delete_node F t a
    let t ← delete_node F t b
    let t ← delete_node F t c
    let t ← delete_node F t d
    delete_node F t e
  | _ => none

end Validation

namespace Claims

open Tree

/-- The reachable state `create_root 7; insert_before root 6`: root (handle 0)
BLACK with a single left child (handle 1). -/
def c1_before : Option (Tree Nat) := do
  let (seven, t) ← (Tree.new.create_root 7).toOption
  let (_six, t) ← insert_before 9 t seven 6
  pure t

/-- The state `delete_node` leaves behind on `c1_before`: handle 0 is removed,
handle 1 is the root, but `next` of handle 1 still points at the removed
handle 0. -/
def c1_after : Tree Nat :=
  { nodes := [none,
      some { parent := none, left := none, right := none, contents := 6,
             prev := none, next := some 0, color := Color.BLACK }],
    root := some 1 }

/-- The state after `create_root 7; insert_before root 6; delete_node root`:
the single live handle 1 whose `next` dangles at the removed handle 0. -/
def c3_mid : Option (Tree Nat) := do
  let (seven, t) ← (Tree.new.create_root 7).toOption
  let (_six, t) ← insert_before 9 t seven 6
  delete_node 9 t seven

/-- The store that held one node and had it removed; its old handle 0 is no
longer live. -/
def c10_store : Tree Nat := ((Tree.new.insertNode (Node.new 3)).2).remove 0

/-- Record of handle 1 in `c5_tree`: a BLACK non-root node with exactly one
child (handle 3, RED). -/
def c5_node : Node Nat :=
  { parent := some 0, left := some 3, right := none, contents := 5,
    prev := some 3, next := some 0, color := Color.BLACK }

/-- A well-formed four-node tree (buildable as `create_root 10;
insert_before root 5; insert_after root 15; insert_before 5 3`): BLACK root 0
with children 1 (BLACK, one RED child 3) and 2 (BLACK). -/
def c5_tree : Tree Nat :=
  { nodes := [
      some { parent := none, left := some 1, right := some 2, contents := 10,
             prev := some 1, next := some 2, color := Color.BLACK },
      some c5_node,
      some { parent := some 0, left := none, right := none, contents := 15,
             prev := some 0, next := none, color := Color.BLACK },
      some { parent := some 1, left := none, right := none, contents := 3,
             prev := none, next := some 1, color := Color.RED }],
    root := some 0 }

/-- A minimal well-formed one-node tree used to witness C6: a single BLACK
root with no children and no order neighbours. -/
def c6_node : Node Nat :=
  { parent := none, left := none, right := none, contents := 7,
    prev := none, next := none, color := Color.BLACK }

def c6_tree : Tree Nat := { nodes := [some c6_node], root := some 0 }


end Claims

namespace Tree

variable {T : Type}

/-! Store-level lemmas: how `get` interacts with `updNode`, and how each
setter and getter steps on a live handle. -/

theorem lt_length_of_get {t : Tree T} {k : Nat} {n : Node T}
    (h : t.get k = some n) : k < t.nodes.length := by
  by_contra hk
  push_neg at hk
  simp [Tree.get, List.getElem?_eq_none_iff.mpr hk] at h

theorem get_updNode_self {t : Tree T} {k : Nat} {n : Node T} (m : Node T)
    (h : t.get k = some n) : (t.updNode k m).get k = some m := by
  simp [Tree.get, updNode, List.getElem?_set_self (lt_length_of_get h)]

theorem get_updNode_ne {t : Tree T} (k j : Nat) (m : Node T) (h : k ≠ j) :
    (t.updNode k m).get j = t.get j := by
  simp [Tree.get, updNode, List.getElem?_set_ne h]

theorem root_updNode (t : Tree T) (k : Nat) (m : Node T) :
    (t.updNode k m).root = t.root := rfl

theorem length_updNode (t : Tree T) (k : Nat) (m : Node T) :
    (t.updNode k m).nodes.length = t.nodes.length := by
  simp [updNode]

theorem get_updNode_isSome {t : Tree T} {j : Nat} (k : Nat) (m : Node T)
    (h : (t.get j).isSome) : ((t.updNode k m).get j).isSome := by
  by_cases hkj : k = j
  · subst hkj
    obtain ⟨n, hn⟩ := Option.isSome_iff_exists.mp h
    simp [get_updNode_self m hn]
  · simp [get_updNode_ne k j m hkj, h]

theorem set_left_eq {t : Tree T} {k : Nat} {n : Node T}
    (h : t.get k = some n) (v : Option Nat) :
    t.set_left k v = some (t.updNode k { n with left := v }) := by
  simp [Tree.set_left, h]

theorem set_right_eq {t : Tree T} {k : Nat} {n : Node T}
    (h : t.get k = some n) (v : Option Nat) :
    t.set_right k v = some (t.updNode k { n with right := v }) := by
  simp [Tree.set_right, h]

theorem set_parent_eq {t : Tree T} {k : Nat} {n : Node T}
    (h : t.get k = some n) (v : Option Nat) :
    t.set_parent k v = some (t.updNode k { n with parent := v }) := by
  simp [Tree.set_parent, h]

theorem set_prev_eq {t : Tree T} {k : Nat} {n : Node T}
    (h : t.get k = some n) (v : Option Nat) :
    t.set_prev k v = some (t.updNode k { n with prev := v }) := by
  simp [Tree.set_prev, h]

theorem set_next_eq {t : Tree T} {k : Nat} {n : Node T}
    (h : t.get k = some n) (v : Option Nat) :
    t.set_next k v = some (t.updNode k { n with next := v }) := by
  simp [Tree.set_next, h]

theorem set_color_eq {t : Tree T} {k : Nat} {n : Node T}
    (h : t.get k = some n) (c : Color) :
    t.set_color k c = some (t.updNode k { n with color := c }) := by
  simp [Tree.set_color, h]

theorem get_left_eq {t : Tree T} {k : Nat} {n : Node T} (h : t.get k = some n) :
    t.get_left k = some n.left := by
  simp [Tree.get_left, h]

theorem get_right_eq {t : Tree T} {k : Nat} {n : Node T} (h : t.get k = some n) :
    t.get_right k = some n.right := by
  simp [Tree.get_right, h]

theorem get_parent_eq {t : Tree T} {k : Nat} {n : Node T} (h : t.get k = some n) :
    t.get_parent k = some n.parent := by
  simp [Tree.get_parent, h]

theorem get_prev_eq {t : Tree T} {k : Nat} {n : Node T} (h : t.get k = some n) :
    t.get_prev k = some n.prev := by
  simp [Tree.get_prev, h]

theorem get_next_eq {t : Tree T} {k : Nat} {n : Node T} (h : t.get k = some n) :
    t.get_next k = some n.next := by
  simp [Tree.get_next, h]

theorem get_color_eq {t : Tree T} {k : Nat} {n : Node T} (h : t.get k = some n) :
    t.get_color (some k) = n.color := by
  simp [Tree.get_color, h]

/-! Extraction lemmas: the individual facts packed into `WF`. -/

theorem mem_liveKeys {t : Tree T} {k : Nat} :
    k ∈ t.liveKeys ↔ (t.get k).isSome := by
  constructor
  · intro h
    simp [liveKeys, List.mem_filter] at h
    exact h.2
  · intro h
    obtain ⟨n, hn⟩ := Option.isSome_iff_exists.mp h
    simp [liveKeys, List.mem_filter, List.mem_range, lt_length_of_get hn, h]

theorem wf_checkNode {t : Tree T} (wf : t.WF) {k : Nat} {n : Node T}
    (h : t.get k = some n) : checkNode t k = true := by
  have hlive : k ∈ t.liveKeys := mem_liveKeys.mpr (by simp [h])
  unfold WF checkTree at wf
  simp only [Bool.and_eq_true] at wf
  exact List.all_eq_true.mp wf.1.2 k hlive

theorem wf_parts {t : Tree T} (wf : t.WF) {k : Nat} {n : Node T}
    (h : t.get k = some n) :
    ((match n.parent with
      | some p =>
        match t.get p with
        | some np => np.left == some k || np.right == some k
        | none => false
      | none => t.root == some k) = true) ∧
    ((match n.left with
      | some c =>
        match t.get c with
        | some nc => nc.parent == some k
        | none => false
      | none => true) = true) ∧
    ((match n.right with
      | some c =>
        match t.get c with
        | some nc => nc.parent == some k
        | none => false
      | none => true) = true) ∧
    ((!n.left.isSome || n.left != n.right) = true) ∧
    ((n.color != Color.RED ||
      (t.get_color n.left == Color.BLACK && t.get_color n.right == Color.BLACK)) = true) ∧
    (blackHeight (wfFuel t) t (some k)).isSome = true ∧
    ((match n.prev with
      | some m =>
        match t.get m with
        | some nm => nm.next == some k
        | none => false
      | none => true) = true) ∧
    ((match n.next with
      | some m =>
        match t.get m with
        | some nm => nm.prev == some k
        | none => false
      | none => true) = true) := by
  have hc := wf_checkNode wf h
  simp only [checkNode, h, Bool.and_eq_true] at hc
  obtain ⟨⟨⟨⟨⟨⟨⟨h1, h2⟩, h3⟩, h4⟩, h5⟩, h6⟩, h7⟩, h8⟩ := hc
  exact ⟨h1, h2, h3, h4, h5, h6, h7, h8⟩

theorem wf_parent_back {t : Tree T} (wf : t.WF) {k p : Nat} {n : Node T}
    (h : t.get k = some n) (hp : n.parent = some p) :
    ∃ np, t.get p = some np ∧ (np.left = some k ∨ np.right = some k) := by
  have hc := (wf_parts wf h).1
  simp only [hp] at hc
  cases ht : t.get p with
  | none => simp [ht] at hc
  | some np =>
    simp only [ht, Bool.or_eq_true, beq_iff_eq] at hc
    exact ⟨np, rfl, hc⟩

theorem wf_root_of_parent_none {t : Tree T} (wf : t.WF) {k : Nat} {n : Node T}
    (h : t.get k = some n) (hp : n.parent = none) : t.root = some k := by
  have hc := (wf_parts wf h).1
  simp only [hp, beq_iff_eq] at hc
  exact hc

theorem wf_left_back {t : Tree T} (wf : t.WF) {k c : Nat} {n : Node T}
    (h : t.get k = some n) (hl : n.left = some c) :
    ∃ nc, t.get c = some nc ∧ nc.parent = some k := by
  have hc := (wf_parts wf h).2.1
  simp only [hl] at hc
  cases ht : t.get c with
  | none => simp [ht] at hc
  | some nc =>
    simp only [ht, beq_iff_eq] at hc
    exact ⟨nc, rfl, hc⟩

theorem wf_right_back {t : Tree T} (wf : t.WF) {k c : Nat} {n : Node T}
    (h : t.get k = some n) (hr : n.right = some c) :
    ∃ nc, t.get c = some nc ∧ nc.parent = some k := by
  have hc := (wf_parts wf h).2.2.1
  simp only [hr] at hc
  cases ht : t.get c with
  | none => simp [ht] at hc
  | some nc =>
    simp only [ht, beq_iff_eq] at hc
    exact ⟨nc, rfl, hc⟩

theorem wf_left_ne_right {t : Tree T} (wf : t.WF) {k c : Nat} {n : Node T}
    (h : t.get k = some n) (hl : n.left = some c) : n.right ≠ some c := by
  have hc := (wf_parts wf h).2.2.2.1
  simp only [hl, Option.isSome_some, Bool.not_true, Bool.false_or, bne_iff_ne] at hc
  intro hr
  exact hc hr.symm

theorem wf_no_red_red {t : Tree T} (wf : t.WF) {k : Nat} {n : Node T}
    (h : t.get k = some n) (hred : n.color = Color.RED) :
    t.get_color n.left = Color.BLACK ∧ t.get_color n.right = Color.BLACK := by
  have hc := (wf_parts wf h).2.2.2.2.1
  simp only [hred, bne_self_eq_false, Bool.false_or, Bool.and_eq_true,
    beq_iff_eq] at hc
  exact hc

theorem wf_bh {t : Tree T} (wf : t.WF) {k : Nat} {n : Node T}
    (h : t.get k = some n) : (blackHeight (wfFuel t) t (some k)).isSome := by
  exact (wf_parts wf h).2.2.2.2.2.1

theorem wf_prev_back {t : Tree T} (wf : t.WF) {k m : Nat} {n : Node T}
    (h : t.get k = some n) (hm : n.prev = some m) :
    ∃ nm, t.get m = some nm ∧ nm.next = some k := by
  have hc := (wf_parts wf h).2.2.2.2.2.2.1
  simp only [hm] at hc
  cases ht : t.get m with
  | none => simp [ht] at hc
  | some nm =>
    simp only [ht, beq_iff_eq] at hc
    exact ⟨nm, rfl, hc⟩

theorem wf_next_back {t : Tree T} (wf : t.WF) {k m : Nat} {n : Node T}
    (h : t.get k = some n) (hm : n.next = some m) :
    ∃ nm, t.get m = some nm ∧ nm.prev = some k := by
  have hc := (wf_parts wf h).2.2.2.2.2.2.2
  simp only [hm] at hc
  cases ht : t.get m with
  | none => simp [ht] at hc
  | some nm =>
    simp only [ht, beq_iff_eq] at hc
    exact ⟨nm, rfl, hc⟩

theorem wf_root_black {t : Tree T} (wf : t.WF) :
    t.get_color t.root = Color.BLACK := by
  unfold WF checkTree at wf
  simp only [Bool.and_eq_true, beq_iff_eq] at wf
  exact wf.1.1.2

theorem wf_root_parent_none {t : Tree T} (wf : t.WF) {r : Nat}
    (hr : t.root = some r) : ∃ n, t.get r = some n ∧ n.parent = none := by
  unfold WF checkTree at wf
  simp only [Bool.and_eq_true] at wf
  have h1 := wf.1.1.1
  simp only [hr] at h1
  cases ht : t.get r with
  | none => simp [ht] at h1
  | some n =>
    simp only [ht, beq_iff_eq] at h1
    exact ⟨n, rfl, h1⟩

theorem wf_order {t : Tree T} (wf : t.WF) :
    ∃ L lm, inorderWalk (wfFuel t) t t.root = some L ∧
      get_leftmost_node (wfFuel t) t = some lm ∧
      chainWalk (wfFuel t) t lm = some L ∧
      L.Perm t.liveKeys := by
  unfold WF checkTree at wf
  simp only [Bool.and_eq_true] at wf
  have h4 := wf.2
  cases hio : inorderWalk (wfFuel t) t t.root with
  | none => simp only [hio] at h4; exact absurd h4 (by simp)
  | some L =>
    simp only [hio, Bool.and_eq_true, decide_eq_true_eq] at h4
    cases hlm : get_leftmost_node (wfFuel t) t with
    | none => simp only [hlm] at h4; exact absurd h4.1 (by simp)
    | some lm =>
      simp only [hlm, beq_iff_eq] at h4
      exact ⟨L, lm, rfl, rfl, h4.1, h4.2⟩

theorem inorderWalk_mono {t : Tree T} :
    ∀ {f g : Nat} {c : Option Nat} {L : List Nat}, f ≤ g →
      inorderWalk f t c = some L → inorderWalk g t c = some L := by
  intro f
  induction f with
  | zero =>
    intro g c L _ h
    cases c with
    | none => cases g <;> simpa [inorderWalk] using h
    | some k => simp [inorderWalk] at h
  | succ f ih =>
    intro g c L hfg h
    cases c with
    | none => cases g <;> simpa [inorderWalk] using h
    | some k =>
      obtain ⟨g', rfl⟩ : ∃ g', g = g' + 1 := ⟨g - 1, by omega⟩
      simp only [inorderWalk, Option.bind_eq_bind, Option.bind_eq_some] at h ⊢
      obtain ⟨n, hn, A, hA, B, hB, hM⟩ := h
      exact ⟨n, hn, A, ih (by omega) hA, B, ih (by omega) hB, hM⟩

theorem inorderWalk_decompose {t : Tree T} {f : Nat} {k : Nat} {n : Node T}
    {M : List Nat} (hn : t.get k = some n)
    (h : inorderWalk (f+1) t (some k) = some M) :
    ∃ A B, inorderWalk f t n.left = some A ∧ inorderWalk f t n.right = some B ∧
      M = A ++ k :: B := by
  simp only [inorderWalk, Option.bind_eq_bind, Option.bind_eq_some, hn] at h
  obtain ⟨n', hn', A, hA, B, hB, hM⟩ := h
  cases hn'
  exact ⟨A, B, hA, hB, by simpa using hM.symm⟩


theorem inorderWalk_members_live {t : Tree T} :
    ∀ {f : Nat} {c : Option Nat} {M : List Nat} {j : Nat},
      inorderWalk f t c = some M → j ∈ M → ∃ n, t.get j = some n := by
  intro f
  induction f with
  | zero =>
    intro c M j h hj
    cases c with
    | none => simp [inorderWalk] at h; subst h; simp at hj
    | some k => simp [inorderWalk] at h
  | succ f ih =>
    intro c M j h hj
    cases c with
    | none => simp [inorderWalk] at h; subst h; simp at hj
    | some k =>
      simp only [inorderWalk, Option.bind_eq_bind, Option.bind_eq_some] at h
      obtain ⟨n, hn, A, hA, B, hB, hM⟩ := h
      have hM' : M = A ++ k :: B := by simpa using hM.symm
      subst hM'
      rcases List.mem_append.mp hj with hjA | hjB
      · exact ih hA hjA
      · rcases List.mem_cons.mp hjB with rfl | hjB
        · exact ⟨n, hn⟩
        · exact ih hB hjB

theorem self_mem_inorderWalk {t : Tree T} {f : Nat} {k : Nat} {M : List Nat}
    (h : inorderWalk f t (some k) = some M) : k ∈ M := by
  cases f with
  | zero => simp [inorderWalk] at h
  | succ f =>
    simp only [inorderWalk, Option.bind_eq_bind, Option.bind_eq_some] at h
    obtain ⟨n, hn, A, hA, B, hB, hM⟩ := h
    have hM' : M = A ++ k :: B := by simpa using hM.symm
    subst hM'
    simp

theorem inorderWalk_sub {t : Tree T} :
    ∀ {f : Nat} {r : Nat} {M : List Nat} {k : Nat},
      inorderWalk f t (some r) = some M → k ∈ M →
      ∃ Mk X Y, inorderWalk f t (some k) = some Mk ∧ M = X ++ Mk ++ Y := by
  intro f
  induction f with
  | zero => intro r M k h _; simp [inorderWalk] at h
  | succ f ih =>
    intro r M k h hk
    by_cases hkr : k = r
    · subst hkr
      exact ⟨M, [], [], h, by simp⟩
    · obtain ⟨n, hn⟩ : ∃ n, t.get r = some n := by
        cases f with
        | zero => exact inorderWalk_members_live h (self_mem_inorderWalk h)
        | succ f => exact inorderWalk_members_live h (self_mem_inorderWalk h)
      obtain ⟨A, B, hA, hB, hM⟩ := inorderWalk_decompose hn h
      subst hM
      rcases List.mem_append.mp hk with hkA | hkB
      · cases hnl : n.left with
        | none => rw [hnl] at hA; simp [inorderWalk] at hA; subst hA; simp at hkA
        | some l =>
          rw [hnl] at hA
          obtain ⟨Mk, X, Y, hMk, hsplit⟩ := ih hA hkA
          refine ⟨Mk, X, Y ++ r :: B, inorderWalk_mono (by omega) hMk, ?_⟩
          rw [hsplit]
          simp
      · rcases List.mem_cons.mp hkB with rfl | hkB
        · exact absurd rfl hkr
        · cases hnr : n.right with
          | none => rw [hnr] at hB; simp [inorderWalk] at hB; subst hB; simp at hkB
          | some rr =>
            rw [hnr] at hB
            obtain ⟨Mk, X, Y, hMk, hsplit⟩ := ih hB hkB
            refine ⟨Mk, A ++ r :: X, Y, inorderWalk_mono (by omega) hMk, ?_⟩
            rw [hsplit]
            simp


theorem chainWalk_shape {t : Tree T} {f : Nat} {k : Nat} {M : List Nat}
    (h : chainWalk (f+1) t (some k) = some M) :
    ∃ n rest, t.get k = some n ∧ chainWalk f t n.next = some rest ∧
      M = k :: rest := by
  simp only [chainWalk, Option.bind_eq_bind, Option.bind_eq_some] at h
  obtain ⟨n, hn, rest, hrest, hM⟩ := h
  exact ⟨n, rest, hn, hrest, by simpa using hM.symm⟩

theorem chain_next_of_split {t : Tree T} :
    ∀ {L1 : List Nat} {f : Nat} {c : Option Nat} {x y : Nat} {L2 : List Nat},
      chainWalk f t c = some (L1 ++ x :: y :: L2) →
      ∃ nx ny, t.get x = some nx ∧ nx.next = some y ∧ t.get y = some ny := by
  intro L1
  induction L1 with
  | nil =>
    intro f c x y L2 h
    cases c with
    | none =>
      cases f with
      | zero => simp [chainWalk] at h
      | succ f => simp [chainWalk] at h
    | some k =>
      cases f with
      | zero => simp [chainWalk] at h
      | succ f =>
        obtain ⟨n, rest, hn, hrest, hM⟩ := chainWalk_shape h
        simp only [List.nil_append] at hM
        obtain ⟨rfl, hrest'⟩ : k = x ∧ rest = y :: L2 := by
          constructor
          · exact (List.cons.injEq .. ▸ hM).1.symm
          · exact (List.cons.injEq .. ▸ hM).2.symm
        subst hrest'
        cases hnx : n.next with
        | none =>
          rw [hnx] at hrest
          cases f with
          | zero => simp [chainWalk] at hrest
          | succ f => simp [chainWalk] at hrest
        | some m =>
          rw [hnx] at hrest
          cases f with
          | zero => simp [chainWalk] at hrest
          | succ f =>
            obtain ⟨ny, rest2, hny, _, hM2⟩ := chainWalk_shape hrest
            obtain rfl : m = y := by
              exact (List.cons.injEq .. ▸ hM2).1.symm
            exact ⟨n, ny, hn, hnx, hny⟩
  | cons a L1 ih =>
    intro f c x y L2 h
    cases c with
    | none =>
      cases f with
      | zero => simp [chainWalk] at h
      | succ f => simp [chainWalk] at h
    | some k =>
      cases f with
      | zero => simp [chainWalk] at h
      | succ f =>
        obtain ⟨n, rest, hn, hrest, hM⟩ := chainWalk_shape h
        simp only [List.cons_append] at hM
        obtain ⟨rfl, hrest'⟩ : a = k ∧ rest = L1 ++ x :: y :: L2 := by
          have := List.cons.injEq .. ▸ hM
          exact ⟨this.1, this.2.symm⟩
        subst hrest'
        exact ih hrest

theorem blackHeight_ge_one {t : Tree T} :
    ∀ {f : Nat} {c : Option Nat} {h : Nat}, blackHeight f t c = some h → 1 ≤ h := by
  intro f
  induction f with
  | zero => intro c h hh; simp [blackHeight] at hh
  | succ f ih =>
    intro c h hh
    cases c with
    | none => simp [blackHeight] at hh; omega
    | some k =>
      simp only [blackHeight, Option.bind_eq_bind, Option.bind_eq_some] at hh
      obtain ⟨n, hn, lh, hlh, rh, hrh, hfin⟩ := hh
      by_cases he : lh = rh
      · have h1 := ih hlh
        simp only [he, if_true, reduceIte] at hfin
        split at hfin <;> simp at hfin <;> omega
      · simp [he] at hfin

theorem blackHeight_decompose {t : Tree T} {f k : Nat} {n : Node T} {h : Nat}
    (hn : t.get k = some n) (hh : blackHeight (f+1) t (some k) = some h) :
    ∃ lh, blackHeight f t n.left = some lh ∧ blackHeight f t n.right = some lh ∧
      h = if n.color = Color.RED then lh else lh + 1 := by
  simp only [blackHeight, Option.bind_eq_bind, Option.bind_eq_some, hn] at hh
  obtain ⟨n', hn', lh, hlh, rh, hrh, hfin⟩ := hh
  cases hn'
  by_cases he : lh = rh
  · subst he
    refine ⟨lh, hlh, hrh, ?_⟩
    simp only [if_pos rfl] at hfin
    split at hfin <;> simp_all
  · simp [he] at hfin


theorem length_pos_of_get {t : Tree T} {k : Nat} {n : Node T}
    (h : t.get k = some n) : 1 ≤ t.nodes.length :=
  Nat.lt_of_lt_of_le (Nat.zero_lt_succ _) (lt_length_of_get h)

theorem blackHeight_none_eq_one {t : Tree T} {f h : Nat}
    (hh : blackHeight (f+1) t none = some h) : h = 1 := by
  simpa [blackHeight] using hh.symm

/-- In a well-formed tree, a node with exactly one child has a RED child:
the nil side has black height 1, so the child side must too, which a BLACK
child (black height at least 2) cannot satisfy. -/
theorem single_child_is_red {t : Tree T} (wf : t.WF) {k c : Nat}
    {n nc : Node T} (hn : t.get k = some n) (hc : t.get c = some nc)
    (honly : (n.left = none ∧ n.right = some c) ∨
             (n.left = some c ∧ n.right = none)) :
    nc.color = Color.RED := by
  have hbh := wf_bh wf hn
  obtain ⟨h, hh⟩ := Option.isSome_iff_exists.mp hbh
  have hlen : 1 ≤ t.nodes.length := length_pos_of_get hn
  obtain ⟨f, hf⟩ : ∃ f, wfFuel t = f + 1 := ⟨t.nodes.length, rfl⟩
  rw [hf] at hh
  obtain ⟨lh, hlh, hrh, _⟩ := blackHeight_decompose hn hh
  obtain ⟨f', hf'⟩ : ∃ f', f = f' + 1 := by
    refine ⟨t.nodes.length - 1, ?_⟩
    have : f = t.nodes.length := by
      have := hf
      simp [wfFuel] at this
      omega
    omega
  by_contra hred
  have hblack : nc.color = Color.BLACK := by
    cases hcol : nc.color with
    | RED => exact absurd hcol hred
    | BLACK => rfl
  rcases honly with ⟨hl, hr⟩ | ⟨hl, hr⟩
  · rw [hl] at hlh
    rw [hr] at hrh
    rw [hf'] at hlh hrh
    have h1 : lh = 1 := blackHeight_none_eq_one hlh
    obtain ⟨clh, hclh, hcrh, hch⟩ := blackHeight_decompose hc hrh
    rw [hblack] at hch
    simp at hch
    have hge := blackHeight_ge_one hclh
    omega
  · rw [hl] at hlh
    rw [hr] at hrh
    rw [hf'] at hlh hrh
    have h1 : lh = 1 := blackHeight_none_eq_one hrh
    obtain ⟨clh, hclh, hcrh, hch⟩ := blackHeight_decompose hc hlh
    rw [hblack] at hch
    simp at hch
    have hge := blackHeight_ge_one hclh
    omega


/-- In a well-formed tree a live node with a right child has a live
order-successor: its `next` is `some` and points at a live handle. -/
theorem next_live_of_right_child {t : Tree T} (wf : t.WF) {k c : Nat}
    {n : Node T} (hn : t.get k = some n) (hr : n.right = some c) :
    ∃ m nm, n.next = some m ∧ t.get m = some nm := by
  obtain ⟨L, lm, hio, hlm, hchain, hperm⟩ := wf_order wf
  have hkL : k ∈ L := hperm.mem_iff.mpr (mem_liveKeys.mpr (by simp [hn]))
  cases hroot : t.root with
  | none =>
    rw [hroot] at hio
    have : L = [] := by
      cases hL : wfFuel t <;> rw [hL] at hio <;> simpa [inorderWalk] using hio.symm
    rw [this] at hkL
    simp at hkL
  | some r =>
    rw [hroot] at hio
    obtain ⟨Mk, X, Y, hMk, hsplit⟩ := inorderWalk_sub hio hkL
    obtain ⟨A, B, hA, hB, hMkeq⟩ := inorderWalk_decompose hn hMk
    rw [hr] at hB
    have hcB : c ∈ B := self_mem_inorderWalk hB
    cases hBshape : B with
    | nil => rw [hBshape] at hcB; simp at hcB
    | cons b0 B' =>
      rw [hBshape] at hMkeq
      have hL : L = (X ++ A) ++ k :: b0 :: (B' ++ Y) := by
        rw [hsplit, hMkeq]
        simp
      rw [hL] at hchain
      obtain ⟨nx, ny, hnx, hnext, hny⟩ := chain_next_of_split hchain
      rw [hn] at hnx
      cases hnx
      exact ⟨b0, ny, hnext, hny⟩

/-- In a well-formed tree a live node with a left child has a live
order-predecessor: its `prev` is `some`, points at a live handle, and that
predecessor's `next` points back. -/
theorem prev_live_of_left_child {t : Tree T} (wf : t.WF) {k c : Nat}
    {n : Node T} (hn : t.get k = some n) (hl : n.left = some c) :
    ∃ m nm, n.prev = some m ∧ t.get m = some nm ∧ nm.next = some k := by
  obtain ⟨L, lm, hio, hlm, hchain, hperm⟩ := wf_order wf
  have hkL : k ∈ L := hperm.mem_iff.mpr (mem_liveKeys.mpr (by simp [hn]))
  cases hroot : t.root with
  | none =>
    rw [hroot] at hio
    have : L = [] := by
      cases hL : wfFuel t <;> rw [hL] at hio <;> simpa [inorderWalk] using hio.symm
    rw [this] at hkL
    simp at hkL
  | some r =>
    rw [hroot] at hio
    obtain ⟨Mk, X, Y, hMk, hsplit⟩ := inorderWalk_sub hio hkL
    obtain ⟨A, B, hA, hB, hMkeq⟩ := inorderWalk_decompose hn hMk
    rw [hl] at hA
    have hcA : c ∈ A := self_mem_inorderWalk hA
    rcases List.eq_nil_or_concat A with rfl | ⟨A', al, rfl⟩
    · simp at hcA
    · rw [hMkeq] at hsplit
      have hL : L = (X ++ A') ++ al :: k :: (B ++ Y) := by
        rw [hsplit]
        simp
      rw [hL] at hchain
      obtain ⟨nal, nk, hnal, hnext, hnk⟩ := chain_next_of_split hchain
      obtain ⟨nk2, hnk2, hprev⟩ := wf_next_back wf hnal hnext
      rw [hn] at hnk2
      cases hnk2
      exact ⟨al, nal, hprev, hnal, hnext⟩

theorem get_remove_ne {t : Tree T} {k j : Nat} (h : k ≠ j) :
    (t.remove k).get j = t.get j := by
  simp [Tree.get, remove, List.getElem?_set_ne h]

theorem get_next_updNode {t : Tree T} {k : Nat} {n : Node T} (m : Node T)
    (hk : t.get k = some n) (hpres : m.next = n.next) (j : Nat) :
    (t.updNode k m).get_next j = t.get_next j := by
  by_cases hjk : j = k
  · subst hjk
    simp [Tree.get_next, get_updNode_self m hk, hk, hpres]
  · simp [Tree.get_next, get_updNode_ne k j m (Ne.symm hjk)]

theorem get_prev_updNode {t : Tree T} {k : Nat} {n : Node T} (m : Node T)
    (hk : t.get k = some n) (hpres : m.prev = n.prev) (j : Nat) :
    (t.updNode k m).get_prev j = t.get_prev j := by
  by_cases hjk : j = k
  · subst hjk
    simp [Tree.get_prev, get_updNode_self m hk, hk, hpres]
  · simp [Tree.get_prev, get_updNode_ne k j m (Ne.symm hjk)]

theorem liveKeys_nodup (t : Tree T) : t.liveKeys.Nodup :=
  (List.nodup_range _).filter _

/-- The canonical in-order walk of a well-formed tree has no duplicates. -/
theorem wf_inorder_nodup {t : Tree T} {L : List Nat}
    (hperm : L.Perm t.liveKeys) : L.Nodup :=
  hperm.nodup_iff.mpr (liveKeys_nodup t)

/-- In a well-formed tree, no live node is its own child. -/
theorem child_ne_self {t : Tree T} (wf : t.WF) {node c : Nat} {n : Node T}
    (hn : t.get node = some n)
    (hchild : n.left = some c ∨ n.right = some c) : c ≠ node := by
  obtain ⟨L, lm, hio, hlm, hchain, hperm⟩ := wf_order wf
  have hkL : node ∈ L := hperm.mem_iff.mpr (mem_liveKeys.mpr (by simp [hn]))
  cases hroot : t.root with
  | none =>
    rw [hroot] at hio
    have : L = [] := by
      cases hL : wfFuel t <;> rw [hL] at hio <;> simpa [inorderWalk] using hio.symm
    rw [this] at hkL
    simp at hkL
  | some r =>
    rw [hroot] at hio
    obtain ⟨Mk, X, Y, hMk, hsplit⟩ := inorderWalk_sub hio hkL
    obtain ⟨A, B, hA, hB, hMkeq⟩ := inorderWalk_decompose hn hMk
    have hLnd : L.Nodup := wf_inorder_nodup hperm
    have hMknd : Mk.Nodup := by
      have hsub : Mk.Sublist L := by
        rw [hsplit, List.append_assoc]
        exact (List.sublist_append_left Mk Y).trans
          (List.sublist_append_right X (Mk ++ Y))
      exact hLnd.sublist hsub
    rw [hMkeq] at hMknd
    have hnotA : node ∉ A ∧ node ∉ B := by
      constructor
      · intro hmem
        have := List.disjoint_of_nodup_append hMknd hmem (by simp)
        exact this
      · have h2 : (node :: B).Nodup := (List.nodup_append.mp hMknd).2.1
        exact (List.nodup_cons.mp h2).1
    rcases hchild with hc | hc
    · rw [hc] at hA
      have : c ∈ A := self_mem_inorderWalk hA
      intro he
      exact hnotA.1 (he ▸ this)
    · rw [hc] at hB
      have : c ∈ B := self_mem_inorderWalk hB
      intro he
      exact hnotA.2 (he ▸ this)


theorem update_order_isSome {t2 : Tree T} {node : Nat} {nn : Node T}
    (h2 : t2.get node = some nn)
    (hnext : ∀ m, nn.next = some m → (t2.get m).isSome)
    (hprev : ∀ m, nn.prev = some m → (t2.get m).isSome) :
    ∃ t3, t2.update_order_for_deletion node = some t3 ∧
      (∀ j, (t2.get j).isSome → (t3.get j).isSome) := by
  unfold update_order_for_deletion
  rw [get_next_eq h2, get_prev_eq h2]
  simp only [Option.some_bind]
  cases hnx : nn.next with
  | none =>
    cases hpv : nn.prev with
    | none => exact ⟨t2, by simp, fun j h => h⟩
    | some pk =>
      obtain ⟨npk, hnpk⟩ := Option.isSome_iff_exists.mp (hprev pk hpv)
      refine ⟨t2.updNode pk { npk with next := none }, ?_,
        fun j h => get_updNode_isSome _ _ h⟩
      simp [set_next_eq hnpk]
  | some nk =>
    obtain ⟨nnk, hnnk⟩ := Option.isSome_iff_exists.mp (hnext nk hnx)
    cases hpv : nn.prev with
    | none =>
      refine ⟨t2.updNode nk { nnk with prev := none }, ?_,
        fun j h => get_updNode_isSome _ _ h⟩
      simp [set_prev_eq hnnk]
    | some pk =>
      have hpk1 : (t2.get pk).isSome := hprev pk hpv
      obtain ⟨npk, hnpk⟩ :=
        Option.isSome_iff_exists.mp
          (get_updNode_isSome (t := t2) nk { nnk with prev := some pk } hpk1)
      refine ⟨(t2.updNode nk { nnk with prev := some pk }).updNode pk
          { npk with next := some nk }, ?_,
        fun j h => get_updNode_isSome _ _ (get_updNode_isSome _ _ h)⟩
      simp [set_prev_eq hnnk, set_next_eq hnpk]


/-- Packaging: every live node of a well-formed tree has a defined in-order
subtree walk without duplicates. -/
theorem wf_subwalk {t : Tree T} (wf : t.WF) {k : Nat} {n : Node T}
    (hn : t.get k = some n) :
    ∃ Mk, inorderWalk (wfFuel t) t (some k) = some Mk ∧ Mk.Nodup := by
  obtain ⟨L, lm, hio, hlm, hchain, hperm⟩ := wf_order wf
  have hkL : k ∈ L := hperm.mem_iff.mpr (mem_liveKeys.mpr (by simp [hn]))
  cases hroot : t.root with
  | none =>
    rw [hroot] at hio
    have : L = [] := by
      cases hL : wfFuel t <;> rw [hL] at hio <;> simpa [inorderWalk] using hio.symm
    rw [this] at hkL
    simp at hkL
  | some r =>
    rw [hroot] at hio
    obtain ⟨Mk, X, Y, hMk, hsplit⟩ := inorderWalk_sub hio hkL
    refine ⟨Mk, hMk, ?_⟩
    have hLnd : L.Nodup := wf_inorder_nodup hperm
    have hsub : Mk.Sublist L := by
      rw [hsplit, List.append_assoc]
      exact (List.sublist_append_left Mk Y).trans
        (List.sublist_append_right X (Mk ++ Y))
    exact hLnd.sublist hsub

/-- In a well-formed tree, two distinct live nodes cannot each be the child of
the other. -/
theorem child_antisymm {t : Tree T} (wf : t.WF) {a b : Nat}
    {na nb : Node T} (ha : t.get a = some na) (hb : t.get b = some nb)
    (h1 : na.left = some b ∨ na.right = some b)
    (h2 : nb.left = some a ∨ nb.right = some a) : False := by
  obtain ⟨Ma, hMa, hnda⟩ := wf_subwalk wf ha
  obtain ⟨f, hf⟩ : ∃ f, wfFuel t = f + 1 := ⟨t.nodes.length, rfl⟩
  rw [hf] at hMa
  obtain ⟨A, B, hA, hB, hMaeq⟩ := inorderWalk_decompose ha hMa
  rw [hMaeq] at hnda
  have hanotAB : a ∉ A ∧ a ∉ B := by
    constructor
    · intro hmem
      exact List.disjoint_of_nodup_append hnda hmem (by simp)
    · have h2' : (a :: B).Nodup := (List.nodup_append.mp hnda).2.1
      exact (List.nodup_cons.mp h2').1
  have hbwalk : inorderWalk f t (some b) = some A ∨
      inorderWalk f t (some b) = some B := by
    rcases h1 with h1 | h1
    · left; rw [h1] at hA; exact hA
    · right; rw [h1] at hB; exact hB
  have hamem : ∀ {W : List Nat}, inorderWalk f t (some b) = some W → a ∈ W := by
    intro W hW
    obtain ⟨f', rfl⟩ : ∃ f', f = f' + 1 := by
      cases f with
      | zero => simp [inorderWalk] at hW
      | succ f' => exact ⟨f', rfl⟩
    obtain ⟨C, D, hC, hD, hWeq⟩ := inorderWalk_decompose hb hW
    rcases h2 with h2 | h2
    · rw [h2] at hC
      have : a ∈ C := self_mem_inorderWalk hC
      rw [hWeq]
      simp [this]
    · rw [h2] at hD
      have : a ∈ D := self_mem_inorderWalk hD
      rw [hWeq]
      simp [this]
  rcases hbwalk with hw | hw
  · exact hanotAB.1 (hamem hw)
  · exact hanotAB.2 (hamem hw)

theorem set_color_isSome {t : Tree T} {k : Nat} (c : Color)
    (h : (t.get k).isSome) : (t.set_color k c).isSome := by
  obtain ⟨n, hn⟩ := Option.isSome_iff_exists.mp h
  simp [set_color_eq hn]





/-! Systematic step lemmas: how each setter affects each accessor.  A setter
touches exactly one field of exactly one record, so every other accessor
reads through it unchanged. -/

theorem set_right_inv {t t' : Tree T} {k : Nat} {v : Option Nat}
    (h : t.set_right k v = some t') :
    ∃ n, t.get k = some n ∧ t' = t.updNode k { n with right := v } := by
  cases hg : t.get k with
  | none => simp [Tree.set_right, hg] at h
  | some n =>
    simp [Tree.set_right, hg] at h
    exact ⟨n, rfl, h.symm⟩

theorem get_right_set_right_self {t t' : Tree T} {k : Nat} {v : Option Nat}
    (h : t.set_right k v = some t') : t'.get_right k = some v := by
  obtain ⟨n, hn, rfl⟩ := set_right_inv h
  simp [Tree.get_right, get_updNode_self _ hn]

theorem get_right_set_right_ne {t t' : Tree T} {k j : Nat} {v : Option Nat}
    (h : t.set_right k v = some t') (hj : j ≠ k) : t'.get_right j = t.get_right j := by
  obtain ⟨n, hn, rfl⟩ := set_right_inv h
  simp [Tree.get_right, get_updNode_ne k j _ (Ne.symm hj)]

theorem get_left_set_right {t t' : Tree T} {k : Nat} {v : Option Nat}
    (h : t.set_right k v = some t') (j : Nat) : t'.get_left j = t.get_left j := by
  obtain ⟨n, hn, rfl⟩ := set_right_inv h
  by_cases hj : j = k
  · subst hj
    simp [Tree.get_left, get_updNode_self _ hn, hn]
  · simp [Tree.get_left, get_updNode_ne k j _ (Ne.symm hj)]

theorem get_parent_set_right {t t' : Tree T} {k : Nat} {v : Option Nat}
    (h : t.set_right k v = some t') (j : Nat) : t'.get_parent j = t.get_parent j := by
  obtain ⟨n, hn, rfl⟩ := set_right_inv h
  by_cases hj : j = k
  · subst hj
    simp [Tree.get_parent, get_updNode_self _ hn, hn]
  · simp [Tree.get_parent, get_updNode_ne k j _ (Ne.symm hj)]

theorem get_prev_set_right {t t' : Tree T} {k : Nat} {v : Option Nat}
    (h : t.set_right k v = some t') (j : Nat) : t'.get_prev j = t.get_prev j := by
  obtain ⟨n, hn, rfl⟩ := set_right_inv h
  by_cases hj : j = k
  · subst hj
    simp [Tree.get_prev, get_updNode_self _ hn, hn]
  · simp [Tree.get_prev, get_updNode_ne k j _ (Ne.symm hj)]

theorem get_next_set_right {t t' : Tree T} {k : Nat} {v : Option Nat}
    (h : t.set_right k v = some t') (j : Nat) : t'.get_next j = t.get_next j := by
  obtain ⟨n, hn, rfl⟩ := set_right_inv h
  by_cases hj : j = k
  · subst hj
    simp [Tree.get_next, get_updNode_self _ hn, hn]
  · simp [Tree.get_next, get_updNode_ne k j _ (Ne.symm hj)]

theorem get_contents_set_right {t t' : Tree T} {k : Nat} {v : Option Nat}
    (h : t.set_right k v = some t') (j : Nat) : t'.get_contents j = t.get_contents j := by
  obtain ⟨n, hn, rfl⟩ := set_right_inv h
  by_cases hj : j = k
  · subst hj
    simp [Tree.get_contents, get_updNode_self _ hn, hn]
  · simp [Tree.get_contents, get_updNode_ne k j _ (Ne.symm hj)]

theorem get_color_set_right {t t' : Tree T} {k : Nat} {v : Option Nat}
    (h : t.set_right k v = some t') (j : Nat) :
    t'.get_color (some j) = t.get_color (some j) := by
  obtain ⟨n, hn, rfl⟩ := set_right_inv h
  by_cases hj : j = k
  · subst hj
    simp [Tree.get_color, get_updNode_self _ hn, hn]
  · simp [Tree.get_color, get_updNode_ne k j _ (Ne.symm hj)]

theorem isSome_get_set_right {t t' : Tree T} {k : Nat} {v : Option Nat}
    (h : t.set_right k v = some t') (j : Nat) :
    (t'.get j).isSome = (t.get j).isSome := by
  obtain ⟨n, hn, rfl⟩ := set_right_inv h
  by_cases hj : j = k
  · subst hj
    simp [get_updNode_self _ hn, hn]
  · simp [get_updNode_ne k j _ (Ne.symm hj)]

theorem root_set_right {t t' : Tree T} {k : Nat} {v : Option Nat}
    (h : t.set_right k v = some t') : t'.root = t.root := by
  obtain ⟨n, hn, rfl⟩ := set_right_inv h
  rfl

theorem length_set_right {t t' : Tree T} {k : Nat} {v : Option Nat}
    (h : t.set_right k v = some t') : t'.nodes.length = t.nodes.length := by
  obtain ⟨n, hn, rfl⟩ := set_right_inv h
  simp [updNode]

theorem set_left_inv {t t' : Tree T} {k : Nat} {v : Option Nat}
    (h : t.set_left k v = some t') :
    ∃ n, t.get k = some n ∧ t' = t.updNode k { n with left := v } := by
  cases hg : t.get k with
  | none => simp [Tree.set_left, hg] at h
  | some n =>
    simp [Tree.set_left, hg] at h
    exact ⟨n, rfl, h.symm⟩

theorem get_right_set_left {t t' : Tree T} {k : Nat} {v : Option Nat}
    (h : t.set_left k v = some t') (j : Nat) : t'.get_right j = t.get_right j := by
  obtain ⟨n, hn, rfl⟩ := set_left_inv h
  by_cases hj : j = k
  · subst hj
    simp [Tree.get_right, get_updNode_self _ hn, hn]
  · simp [Tree.get_right, get_updNode_ne k j _ (Ne.symm hj)]

theorem get_left_set_left_self {t t' : Tree T} {k : Nat} {v : Option Nat}
    (h : t.set_left k v = some t') : t'.get_left k = some v := by
  obtain ⟨n, hn, rfl⟩ := set_left_inv h
  simp [Tree.get_left, get_updNode_self _ hn]

theorem get_left_set_left_ne {t t' : Tree T} {k j : Nat} {v : Option Nat}
    (h : t.set_left k v = some t') (hj : j ≠ k) : t'.get_left j = t.get_left j := by
  obtain ⟨n, hn, rfl⟩ := set_left_inv h
  simp [Tree.get_left, get_updNode_ne k j _ (Ne.symm hj)]

theorem get_parent_set_left {t t' : Tree T} {k : Nat} {v : Option Nat}
    (h : t.set_left k v = some t') (j : Nat) : t'.get_parent j = t.get_parent j := by
  obtain ⟨n, hn, rfl⟩ := set_left_inv h
  by_cases hj : j = k
  · subst hj
    simp [Tree.get_parent, get_updNode_self _ hn, hn]
  · simp [Tree.get_parent, get_updNode_ne k j _ (Ne.symm hj)]

theorem get_prev_set_left {t t' : Tree T} {k : Nat} {v : Option Nat}
    (h : t.set_left k v = some t') (j : Nat) : t'.get_prev j = t.get_prev j := by
  obtain ⟨n, hn, rfl⟩ := set_left_inv h
  by_cases hj : j = k
  · subst hj
    simp [Tree.get_prev, get_updNode_self _ hn, hn]
  · simp [Tree.get_prev, get_updNode_ne k j _ (Ne.symm hj)]

theorem get_next_set_left {t t' : Tree T} {k : Nat} {v : Option Nat}
    (h : t.set_left k v = some t') (j : Nat) : t'.get_next j = t.get_next j := by
  obtain ⟨n, hn, rfl⟩ := set_left_inv h
  by_cases hj : j = k
  · subst hj
    simp [Tree.get_next, get_updNode_self _ hn, hn]
  · simp [Tree.get_next, get_updNode_ne k j _ (Ne.symm hj)]

theorem get_contents_set_left {t t' : Tree T} {k : Nat} {v : Option Nat}
    (h : t.set_left k v = some t') (j : Nat) : t'.get_contents j = t.get_contents j := by
  obtain ⟨n, hn, rfl⟩ := set_left_inv h
  by_cases hj : j = k
  · subst hj
    simp [Tree.get_contents, get_updNode_self _ hn, hn]
  · simp [Tree.get_contents, get_updNode_ne k j _ (Ne.symm hj)]

theorem get_color_set_left {t t' : Tree T} {k : Nat} {v : Option Nat}
    (h : t.set_left k v = some t') (j : Nat) :
    t'.get_color (some j) = t.get_color (some j) := by
  obtain ⟨n, hn, rfl⟩ := set_left_inv h
  by_cases hj : j = k
  · subst hj
    simp [Tree.get_color, get_updNode_self _ hn, hn]
  · simp [Tree.get_color, get_updNode_ne k j _ (Ne.symm hj)]

theorem isSome_get_set_left {t t' : Tree T} {k : Nat} {v : Option Nat}
    (h : t.set_left k v = some t') (j : Nat) :
    (t'.get j).isSome = (t.get j).isSome := by
  obtain ⟨n, hn, rfl⟩ := set_left_inv h
  by_cases hj : j = k
  · subst hj
    simp [get_updNode_self _ hn, hn]
  · simp [get_updNode_ne k j _ (Ne.symm hj)]

theorem root_set_left {t t' : Tree T} {k : Nat} {v : Option Nat}
    (h : t.set_left k v = some t') : t'.root = t.root := by
  obtain ⟨n, hn, rfl⟩ := set_left_inv h
  rfl

theorem length_set_left {t t' : Tree T} {k : Nat} {v : Option Nat}
    (h : t.set_left k v = some t') : t'.nodes.length = t.nodes.length := by
  obtain ⟨n, hn, rfl⟩ := set_left_inv h
  simp [updNode]

theorem set_parent_inv {t t' : Tree T} {k : Nat} {v : Option Nat}
    (h : t.set_parent k v = some t') :
    ∃ n, t.get k = some n ∧ t' = t.updNode k { n with parent := v } := by
  cases hg : t.get k with
  | none => simp [Tree.set_parent, hg] at h
  | some n =>
    simp [Tree.set_parent, hg] at h
    exact ⟨n, rfl, h.symm⟩

theorem get_right_set_parent {t t' : Tree T} {k : Nat} {v : Option Nat}
    (h : t.set_parent k v = some t') (j : Nat) : t'.get_right j = t.get_right j := by
  obtain ⟨n, hn, rfl⟩ := set_parent_inv h
  by_cases hj : j = k
  · subst hj
    simp [Tree.get_right, get_updNode_self _ hn, hn]
  · simp [Tree.get_right, get_updNode_ne k j _ (Ne.symm hj)]

theorem get_left_set_parent {t t' : Tree T} {k : Nat} {v : Option Nat}
    (h : t.set_parent k v = some t') (j : Nat) : t'.get_left j = t.get_left j := by
  obtain ⟨n, hn, rfl⟩ := set_parent_inv h
  by_cases hj : j = k
  · subst hj
    simp [Tree.get_left, get_updNode_self _ hn, hn]
  · simp [Tree.get_left, get_updNode_ne k j _ (Ne.symm hj)]

theorem get_parent_set_parent_self {t t' : Tree T} {k : Nat} {v : Option Nat}
    (h : t.set_parent k v = some t') : t'.get_parent k = some v := by
  obtain ⟨n, hn, rfl⟩ := set_parent_inv h
  simp [Tree.get_parent, get_updNode_self _ hn]

theorem get_parent_set_parent_ne {t t' : Tree T} {k j : Nat} {v : Option Nat}
    (h : t.set_parent k v = some t') (hj : j ≠ k) : t'.get_parent j = t.get_parent j := by
  obtain ⟨n, hn, rfl⟩ := set_parent_inv h
  simp [Tree.get_parent, get_updNode_ne k j _ (Ne.symm hj)]

theorem get_prev_set_parent {t t' : Tree T} {k : Nat} {v : Option Nat}
    (h : t.set_parent k v = some t') (j : Nat) : t'.get_prev j = t.get_prev j := by
  obtain ⟨n, hn, rfl⟩ := set_parent_inv h
  by_cases hj : j = k
  · subst hj
    simp [Tree.get_prev, get_updNode_self _ hn, hn]
  · simp [Tree.get_prev, get_updNode_ne k j _ (Ne.symm hj)]

theorem get_next_set_parent {t t' : Tree T} {k : Nat} {v : Option Nat}
    (h : t.set_parent k v = some t') (j : Nat) : t'.get_next j = t.get_next j := by
  obtain ⟨n, hn, rfl⟩ := set_parent_inv h
  by_cases hj : j = k
  · subst hj
    simp [Tree.get_next, get_updNode_self _ hn, hn]
  · simp [Tree.get_next, get_updNode_ne k j _ (Ne.symm hj)]

theorem get_contents_set_parent {t t' : Tree T} {k : Nat} {v : Option Nat}
    (h : t.set_parent k v = some t') (j : Nat) : t'.get_contents j = t.get_contents j := by
  obtain ⟨n, hn, rfl⟩ := set_parent_inv h
  by_cases hj : j = k
  · subst hj
    simp [Tree.get_contents, get_updNode_self _ hn, hn]
  · simp [Tree.get_contents, get_updNode_ne k j _ (Ne.symm hj)]

theorem get_color_set_parent {t t' : Tree T} {k : Nat} {v : Option Nat}
    (h : t.set_parent k v = some t') (j : Nat) :
    t'.get_color (some j) = t.get_color (some j) := by
  obtain ⟨n, hn, rfl⟩ := set_parent_inv h
  by_cases hj : j = k
  · subst hj
    simp [Tree.get_color, get_updNode_self _ hn, hn]
  · simp [Tree.get_color, get_updNode_ne k j _ (Ne.symm hj)]

theorem isSome_get_set_parent {t t' : Tree T} {k : Nat} {v : Option Nat}
    (h : t.set_parent k v = some t') (j : Nat) :
    (t'.get j).isSome = (t.get j).isSome := by
  obtain ⟨n, hn, rfl⟩ := set_parent_inv h
  by_cases hj : j = k
  · subst hj
    simp [get_updNode_self _ hn, hn]
  · simp [get_updNode_ne k j _ (Ne.symm hj)]

theorem root_set_parent {t t' : Tree T} {k : Nat} {v : Option Nat}
    (h : t.set_parent k v = some t') : t'.root = t.root := by
  obtain ⟨n, hn, rfl⟩ := set_parent_inv h
  rfl

theorem length_set_parent {t t' : Tree T} {k : Nat} {v : Option Nat}
    (h : t.set_parent k v = some t') : t'.nodes.length = t.nodes.length := by
  obtain ⟨n, hn, rfl⟩ := set_parent_inv h
  simp [updNode]

theorem set_prev_inv {t t' : Tree T} {k : Nat} {v : Option Nat}
    (h : t.set_prev k v = some t') :
    ∃ n, t.get k = some n ∧ t' = t.updNode k { n with prev := v } := by
  cases hg : t.get k with
  | none => simp [Tree.set_prev, hg] at h
  | some n =>
    simp [Tree.set_prev, hg] at h
    exact ⟨n, rfl, h.symm⟩

theorem get_right_set_prev {t t' : Tree T} {k : Nat} {v : Option Nat}
    (h : t.set_prev k v = some t') (j : Nat) : t'.get_right j = t.get_right j := by
  obtain ⟨n, hn, rfl⟩ := set_prev_inv h
  by_cases hj : j = k
  · subst hj
    simp [Tree.get_right, get_updNode_self _ hn, hn]
  · simp [Tree.get_right, get_updNode_ne k j _ (Ne.symm hj)]

theorem get_left_set_prev {t t' : Tree T} {k : Nat} {v : Option Nat}
    (h : t.set_prev k v = some t') (j : Nat) : t'.get_left j = t.get_left j := by
  obtain ⟨n, hn, rfl⟩ := set_prev_inv h
  by_cases hj : j = k
  · subst hj
    simp [Tree.get_left, get_updNode_self _ hn, hn]
  · simp [Tree.get_left, get_updNode_ne k j _ (Ne.symm hj)]

theorem get_parent_set_prev {t t' : Tree T} {k : Nat} {v : Option Nat}
    (h : t.set_prev k v = some t') (j : Nat) : t'.get_parent j = t.get_parent j := by
  obtain ⟨n, hn, rfl⟩ := set_prev_inv h
  by_cases hj : j = k
  · subst hj
    simp [Tree.get_parent, get_updNode_self _ hn, hn]
  · simp [Tree.get_parent, get_updNode_ne k j _ (Ne.symm hj)]

theorem get_prev_set_prev_self {t t' : Tree T} {k : Nat} {v : Option Nat}
    (h : t.set_prev k v = some t') : t'.get_prev k = some v := by
  obtain ⟨n, hn, rfl⟩ := set_prev_inv h
  simp [Tree.get_prev, get_updNode_self _ hn]

theorem get_prev_set_prev_ne {t t' : Tree T} {k j : Nat} {v : Option Nat}
    (h : t.set_prev k v = some t') (hj : j ≠ k) : t'.get_prev j = t.get_prev j := by
  obtain ⟨n, hn, rfl⟩ := set_prev_inv h
  simp [Tree.get_prev, get_updNode_ne k j _ (Ne.symm hj)]

theorem get_next_set_prev {t t' : Tree T} {k : Nat} {v : Option Nat}
    (h : t.set_prev k v = some t') (j : Nat) : t'.get_next j = t.get_next j := by
  obtain ⟨n, hn, rfl⟩ := set_prev_inv h
  by_cases hj : j = k
  · subst hj
    simp [Tree.get_next, get_updNode_self _ hn, hn]
  · simp [Tree.get_next, get_updNode_ne k j _ (Ne.symm hj)]

theorem get_contents_set_prev {t t' : Tree T} {k : Nat} {v : Option Nat}
    (h : t.set_prev k v = some t') (j : Nat) : t'.get_contents j = t.get_contents j := by
  obtain ⟨n, hn, rfl⟩ := set_prev_inv h
  by_cases hj : j = k
  · subst hj
    simp [Tree.get_contents, get_updNode_self _ hn, hn]
  · simp [Tree.get_contents, get_updNode_ne k j _ (Ne.symm hj)]

theorem get_color_set_prev {t t' : Tree T} {k : Nat} {v : Option Nat}
    (h : t.set_prev k v = some t') (j : Nat) :
    t'.get_color (some j) = t.get_color (some j) := by
  obtain ⟨n, hn, rfl⟩ := set_prev_inv h
  by_cases hj : j = k
  · subst hj
    simp [Tree.get_color, get_updNode_self _ hn, hn]
  · simp [Tree.get_color, get_updNode_ne k j _ (Ne.symm hj)]

theorem isSome_get_set_prev {t t' : Tree T} {k : Nat} {v : Option Nat}
    (h : t.set_prev k v = some t') (j : Nat) :
    (t'.get j).isSome = (t.get j).isSome := by
  obtain ⟨n, hn, rfl⟩ := set_prev_inv h
  by_cases hj : j = k
  · subst hj
    simp [get_updNode_self _ hn, hn]
  · simp [get_updNode_ne k j _ (Ne.symm hj)]

theorem root_set_prev {t t' : Tree T} {k : Nat} {v : Option Nat}
    (h : t.set_prev k v = some t') : t'.root = t.root := by
  obtain ⟨n, hn, rfl⟩ := set_prev_inv h
  rfl

theorem length_set_prev {t t' : Tree T} {k : Nat} {v : Option Nat}
    (h : t.set_prev k v = some t') : t'.nodes.length = t.nodes.length := by
  obtain ⟨n, hn, rfl⟩ := set_prev_inv h
  simp [updNode]

theorem set_next_inv {t t' : Tree T} {k : Nat} {v : Option Nat}
    (h : t.set_next k v = some t') :
    ∃ n, t.get k = some n ∧ t' = t.updNode k { n with next := v } := by
  cases hg : t.get k with
  | none => simp [Tree.set_next, hg] at h
  | some n =>
    simp [Tree.set_next, hg] at h
    exact ⟨n, rfl, h.symm⟩

theorem get_right_set_next {t t' : Tree T} {k : Nat} {v : Option Nat}
    (h : t.set_next k v = some t') (j : Nat) : t'.get_right j = t.get_right j := by
  obtain ⟨n, hn, rfl⟩ := set_next_inv h
  by_cases hj : j = k
  · subst hj
    simp [Tree.get_right, get_updNode_self _ hn, hn]
  · simp [Tree.get_right, get_updNode_ne k j _ (Ne.symm hj)]

theorem get_left_set_next {t t' : Tree T} {k : Nat} {v : Option Nat}
    (h : t.set_next k v = some t') (j : Nat) : t'.get_left j = t.get_left j := by
  obtain ⟨n, hn, rfl⟩ := set_next_inv h
  by_cases hj : j = k
  · subst hj
    simp [Tree.get_left, get_updNode_self _ hn, hn]
  · simp [Tree.get_left, get_updNode_ne k j _ (Ne.symm hj)]

theorem get_parent_set_next {t t' : Tree T} {k : Nat} {v : Option Nat}
    (h : t.set_next k v = some t') (j : Nat) : t'.get_parent j = t.get_parent j := by
  obtain ⟨n, hn, rfl⟩ := set_next_inv h
  by_cases hj : j = k
  · subst hj
    simp [Tree.get_parent, get_updNode_self _ hn, hn]
  · simp [Tree.get_parent, get_updNode_ne k j _ (Ne.symm hj)]

theorem get_prev_set_next {t t' : Tree T} {k : Nat} {v : Option Nat}
    (h : t.set_next k v = some t') (j : Nat) : t'.get_prev j = t.get_prev j := by
  obtain ⟨n, hn, rfl⟩ := set_next_inv h
  by_cases hj : j = k
  · subst hj
    simp [Tree.get_prev, get_updNode_self _ hn, hn]
  · simp [Tree.get_prev, get_updNode_ne k j _ (Ne.symm hj)]

theorem get_next_set_next_self {t t' : Tree T} {k : Nat} {v : Option Nat}
    (h : t.set_next k v = some t') : t'.get_next k = some v := by
  obtain ⟨n, hn, rfl⟩ := set_next_inv h
  simp [Tree.get_next, get_updNode_self _ hn]

theorem get_next_set_next_ne {t t' : Tree T} {k j : Nat} {v : Option Nat}
    (h : t.set_next k v = some t') (hj : j ≠ k) : t'.get_next j = t.get_next j := by
  obtain ⟨n, hn, rfl⟩ := set_next_inv h
  simp [Tree.get_next, get_updNode_ne k j _ (Ne.symm hj)]

theorem get_contents_set_next {t t' : Tree T} {k : Nat} {v : Option Nat}
    (h : t.set_next k v = some t') (j : Nat) : t'.get_contents j = t.get_contents j := by
  obtain ⟨n, hn, rfl⟩ := set_next_inv h
  by_cases hj : j = k
  · subst hj
    simp [Tree.get_contents, get_updNode_self _ hn, hn]
  · simp [Tree.get_contents, get_updNode_ne k j _ (Ne.symm hj)]

theorem get_color_set_next {t t' : Tree T} {k : Nat} {v : Option Nat}
    (h : t.set_next k v = some t') (j : Nat) :
    t'.get_color (some j) = t.get_color (some j) := by
  obtain ⟨n, hn, rfl⟩ := set_next_inv h
  by_cases hj : j = k
  · subst hj
    simp [Tree.get_color, get_updNode_self _ hn, hn]
  · simp [Tree.get_color, get_updNode_ne k j _ (Ne.symm hj)]

theorem isSome_get_set_next {t t' : Tree T} {k : Nat} {v : Option Nat}
    (h : t.set_next k v = some t') (j : Nat) :
    (t'.get j).isSome = (t.get j).isSome := by
  obtain ⟨n, hn, rfl⟩ := set_next_inv h
  by_cases hj : j = k
  · subst hj
    simp [get_updNode_self _ hn, hn]
  · simp [get_updNode_ne k j _ (Ne.symm hj)]

theorem root_set_next {t t' : Tree T} {k : Nat} {v : Option Nat}
    (h : t.set_next k v = some t') : t'.root = t.root := by
  obtain ⟨n, hn, rfl⟩ := set_next_inv h
  rfl

theorem length_set_next {t t' : Tree T} {k : Nat} {v : Option Nat}
    (h : t.set_next k v = some t') : t'.nodes.length = t.nodes.length := by
  obtain ⟨n, hn, rfl⟩ := set_next_inv h
  simp [updNode]

theorem set_color_inv {t t' : Tree T} {k : Nat} {v : Color}
    (h : t.set_color k v = some t') :
    ∃ n, t.get k = some n ∧ t' = t.updNode k { n with color := v } := by
  cases hg : t.get k with
  | none => simp [Tree.set_color, hg] at h
  | some n =>
    simp [Tree.set_color, hg] at h
    exact ⟨n, rfl, h.symm⟩

theorem get_right_set_color {t t' : Tree T} {k : Nat} {v : Color}
    (h : t.set_color k v = some t') (j : Nat) : t'.get_right j = t.get_right j := by
  obtain ⟨n, hn, rfl⟩ := set_color_inv h
  by_cases hj : j = k
  · subst hj
    simp [Tree.get_right, get_updNode_self _ hn, hn]
  · simp [Tree.get_right, get_updNode_ne k j _ (Ne.symm hj)]

theorem get_left_set_color {t t' : Tree T} {k : Nat} {v : Color}
    (h : t.set_color k v = some t') (j : Nat) : t'.get_left j = t.get_left j := by
  obtain ⟨n, hn, rfl⟩ := set_color_inv h
  by_cases hj : j = k
  · subst hj
    simp [Tree.get_left, get_updNode_self _ hn, hn]
  · simp [Tree.get_left, get_updNode_ne k j _ (Ne.symm hj)]

theorem get_parent_set_color {t t' : Tree T} {k : Nat} {v : Color}
    (h : t.set_color k v = some t') (j : Nat) : t'.get_parent j = t.get_parent j := by
  obtain ⟨n, hn, rfl⟩ := set_color_inv h
  by_cases hj : j = k
  · subst hj
    simp [Tree.get_parent, get_updNode_self _ hn, hn]
  · simp [Tree.get_parent, get_updNode_ne k j _ (Ne.symm hj)]

theorem get_prev_set_color {t t' : Tree T} {k : Nat} {v : Color}
    (h : t.set_color k v = some t') (j : Nat) : t'.get_prev j = t.get_prev j := by
  obtain ⟨n, hn, rfl⟩ := set_color_inv h
  by_cases hj : j = k
  · subst hj
    simp [Tree.get_prev, get_updNode_self _ hn, hn]
  · simp [Tree.get_prev, get_updNode_ne k j _ (Ne.symm hj)]

theorem get_next_set_color {t t' : Tree T} {k : Nat} {v : Color}
    (h : t.set_color k v = some t') (j : Nat) : t'.get_next j = t.get_next j := by
  obtain ⟨n, hn, rfl⟩ := set_color_inv h
  by_cases hj : j = k
  · subst hj
    simp [Tree.get_next, get_updNode_self _ hn, hn]
  · simp [Tree.get_next, get_updNode_ne k j _ (Ne.symm hj)]

theorem get_contents_set_color {t t' : Tree T} {k : Nat} {v : Color}
    (h : t.set_color k v = some t') (j : Nat) : t'.get_contents j = t.get_contents j := by
  obtain ⟨n, hn, rfl⟩ := set_color_inv h
  by_cases hj : j = k
  · subst hj
    simp [Tree.get_contents, get_updNode_self _ hn, hn]
  · simp [Tree.get_contents, get_updNode_ne k j _ (Ne.symm hj)]

theorem get_color_set_color_self {t t' : Tree T} {k : Nat} {v : Color}
    (h : t.set_color k v = some t') : t'.get_color (some k) = v := by
  obtain ⟨n, hn, rfl⟩ := set_color_inv h
  simp [Tree.get_color, Tree.get_color, get_updNode_self _ hn]

theorem get_color_set_color_ne {t t' : Tree T} {k j : Nat} {v : Color}
    (h : t.set_color k v = some t') (hj : j ≠ k) :
    t'.get_color (some j) = t.get_color (some j) := by
  obtain ⟨n, hn, rfl⟩ := set_color_inv h
  simp [Tree.get_color, get_updNode_ne k j _ (Ne.symm hj)]

theorem isSome_get_set_color {t t' : Tree T} {k : Nat} {v : Color}
    (h : t.set_color k v = some t') (j : Nat) :
    (t'.get j).isSome = (t.get j).isSome := by
  obtain ⟨n, hn, rfl⟩ := set_color_inv h
  by_cases hj : j = k
  · subst hj
    simp [get_updNode_self _ hn, hn]
  · simp [get_updNode_ne k j _ (Ne.symm hj)]

theorem root_set_color {t t' : Tree T} {k : Nat} {v : Color}
    (h : t.set_color k v = some t') : t'.root = t.root := by
  obtain ⟨n, hn, rfl⟩ := set_color_inv h
  rfl

theorem length_set_color {t t' : Tree T} {k : Nat} {v : Color}
    (h : t.set_color k v = some t') : t'.nodes.length = t.nodes.length := by
  obtain ⟨n, hn, rfl⟩ := set_color_inv h
  simp [updNode]


theorem get_insertNode_self (t : Tree T) (n : Node T) :
    ((t.insertNode n).2).get t.nodes.length = some n := by
  simp [Tree.get, insertNode, List.getElem?_concat_length]

theorem get_insertNode_of_get {t : Tree T} {j : Nat} {m : Node T} (n : Node T)
    (h : t.get j = some m) : ((t.insertNode n).2).get j = some m := by
  have hj := lt_length_of_get h
  simp only [Tree.get, insertNode, List.getElem?_append_left hj] at *
  exact h

theorem root_insertNode (t : Tree T) (n : Node T) :
    ((t.insertNode n).2).root = t.root := rfl

theorem fresh_ne_live {t : Tree T} {j : Nat} {m : Node T}
    (h : t.get j = some m) : j ≠ t.nodes.length := by
  have := lt_length_of_get h
  omega


theorem c6_after_aux {T : Type} {t : Tree T} {anchor : Nat} {n : Node T}
    (v : T) (wf : t.WF) (hn : t.get anchor = some n) :
    ∃ t1, t.insert_after_place anchor v = some (t.nodes.length, t1) ∧
      t1.get_color (some t.nodes.length) = Color.RED ∧
      (n.right = none →
        t1.get_right anchor = some (some t.nodes.length) ∧
        t1.get_parent t.nodes.length = some (some anchor)) ∧
      (∀ rc, n.right = some rc →
        ∃ s, n.next = some s ∧
          t1.get_left s = some (some t.nodes.length) ∧
          t1.get_parent t.nodes.length = some (some s)) ∧
      t1.get_prev t.nodes.length = some (some anchor) ∧
      t1.get_next t.nodes.length = some n.next ∧
      t1.get_next anchor = some (some t.nodes.length) ∧
      (∀ m, n.next = some m → t1.get_prev m = some (some t.nodes.length)) := by
  have hanchL : anchor ≠ t.nodes.length := fresh_ne_live hn
  have h0new : ((t.insertNode (Node.new v)).2).get t.nodes.length =
      some (Node.new v) := get_insertNode_self t _
  have h0anchor : ((t.insertNode (Node.new v)).2).get anchor = some n :=
    get_insertNode_of_get _ hn
  simp only [insertNode] at h0new h0anchor
  have hred0 : ((Tree.mk (t.nodes ++ [some (Node.new v)]) t.root : Tree T)).get_color
      (some t.nodes.length) = Color.RED := by
    rw [get_color_eq h0new]
    rfl
  have hnextlive : ∀ m, n.next = some m →
      (((Tree.mk (t.nodes ++ [some (Node.new v)]) t.root : Tree T)).get m).isSome = true := by
    intro m hm
    obtain ⟨nm, hnm, _⟩ := wf_next_back wf hn hm
    have := get_insertNode_of_get (Node.new v) hnm
    simp only [insertNode] at this
    simp [this]
  have hnext_ne_L : ∀ m, n.next = some m → m ≠ t.nodes.length := by
    intro m hm
    obtain ⟨nm, hnm, _⟩ := wf_next_back wf hn hm
    exact fresh_ne_live hnm
  -- the common splice tail, over an arbitrary placement state te
  have hsplice : ∀ (nxtv : Option Nat), nxtv = n.next → ∀ te : Tree T,
      (te.get t.nodes.length).isSome = true →
      (te.get anchor).isSome = true →
      (∀ m, n.next = some m → (te.get m).isSome = true) →
      ∃ t1,
        ((te.set_next t.nodes.length nxtv).bind fun t2 =>
          (t2.get_next t.nodes.length).bind fun nn =>
            match nn with
            | some nxt =>
              (t2.set_prev nxt (some t.nodes.length)).bind fun y =>
                (y.set_prev t.nodes.length (some anchor)).bind fun t3 =>
                  (t3.set_next anchor (some t.nodes.length)).bind fun t4 =>
                    pure (t.nodes.length, t4)
            | none =>
              ((pure t2 : Option (Tree T))).bind fun y =>
                (y.set_prev t.nodes.length (some anchor)).bind fun t3 =>
                  (t3.set_next anchor (some t.nodes.length)).bind fun t4 =>
                    pure (t.nodes.length, t4)) = some (t.nodes.length, t1) ∧
        t1.get_prev t.nodes.length = some (some anchor) ∧
        t1.get_next t.nodes.length = some n.next ∧
        t1.get_next anchor = some (some t.nodes.length) ∧
        (∀ m, n.next = some m → t1.get_prev m = some (some t.nodes.length)) ∧
        (∀ j, t1.get_left j = te.get_left j) ∧
        (∀ j, t1.get_right j = te.get_right j) ∧
        (∀ j, t1.get_parent j = te.get_parent j) ∧
        (∀ j, t1.get_color (some j) = te.get_color (some j)) := by
    intro nxtv hnx te hteL hteA hteM
    subst hnx
    obtain ⟨recL, hrecL⟩ := Option.isSome_iff_exists.mp hteL
    obtain ⟨t2, h2⟩ : ∃ x, te.set_next t.nodes.length n.next = some x :=
      ⟨_, set_next_eq hrecL _⟩
    rw [h2]
    simp only [Option.some_bind]
    rw [get_next_set_next_self h2]
    simp only [Option.some_bind]
    cases hm : n.next with
    | none =>
      simp only [Option.pure_def, Option.some_bind]
      have h2L : (t2.get t.nodes.length).isSome = true := by
        rw [isSome_get_set_next h2]
        exact hteL
      obtain ⟨recL2, hrecL2⟩ := Option.isSome_iff_exists.mp h2L
      obtain ⟨t3, h3⟩ : ∃ x, t2.set_prev t.nodes.length (some anchor) = some x :=
        ⟨_, set_prev_eq hrecL2 _⟩
      rw [h3]
      simp only [Option.some_bind]
      have h3A : (t3.get anchor).isSome = true := by
        rw [isSome_get_set_prev h3, isSome_get_set_next h2]
        exact hteA
      obtain ⟨recA3, hrecA3⟩ := Option.isSome_iff_exists.mp h3A
      obtain ⟨t4, h4⟩ : ∃ x, t3.set_next anchor (some t.nodes.length) = some x :=
        ⟨_, set_next_eq hrecA3 _⟩
      rw [h4]
      simp only [Option.some_bind, Option.pure_def, Option.some_inj]
      refine ⟨t4, rfl, ?_, ?_, ?_, ?_, ?_, ?_, ?_, ?_⟩
      · rw [get_prev_set_next h4, get_prev_set_prev_self h3]
      · rw [get_next_set_next_ne h4 (Ne.symm hanchL),
          get_next_set_prev h3, get_next_set_next_self h2, hm]
      · rw [get_next_set_next_self h4]
      · intro m hmm
        exact Option.noConfusion hmm
      · intro j
        rw [get_left_set_next h4, get_left_set_prev h3, get_left_set_next h2]
      · intro j
        rw [get_right_set_next h4, get_right_set_prev h3, get_right_set_next h2]
      · intro j
        rw [get_parent_set_next h4, get_parent_set_prev h3,
          get_parent_set_next h2]
      · intro j
        rw [get_color_set_next h4, get_color_set_prev h3, get_color_set_next h2]
    | some m =>
      simp only [Option.some_bind]
      have hmL : m ≠ t.nodes.length := hnext_ne_L m hm
      have h2m : (t2.get m).isSome = true := by
        rw [isSome_get_set_next h2]
        exact hteM m hm
      obtain ⟨recm, hrecm⟩ := Option.isSome_iff_exists.mp h2m
      obtain ⟨t3, h3⟩ : ∃ x, t2.set_prev m (some t.nodes.length) = some x :=
        ⟨_, set_prev_eq hrecm _⟩
      rw [h3]
      simp only [Option.some_bind]
      have h3L : (t3.get t.nodes.length).isSome = true := by
        rw [isSome_get_set_prev h3, isSome_get_set_next h2]
        exact hteL
      obtain ⟨recL3, hrecL3⟩ := Option.isSome_iff_exists.mp h3L
      obtain ⟨t4, h4⟩ : ∃ x, t3.set_prev t.nodes.length (some anchor) = some x :=
        ⟨_, set_prev_eq hrecL3 _⟩
      rw [h4]
      simp only [Option.some_bind]
      have h4A : (t4.get anchor).isSome = true := by
        rw [isSome_get_set_prev h4, isSome_get_set_prev h3,
          isSome_get_set_next h2]
        exact hteA
      obtain ⟨recA4, hrecA4⟩ := Option.isSome_iff_exists.mp h4A
      obtain ⟨t5, h5⟩ : ∃ x, t4.set_next anchor (some t.nodes.length) = some x :=
        ⟨_, set_next_eq hrecA4 _⟩
      rw [h5]
      simp only [Option.some_bind, Option.pure_def, Option.some_inj]
      refine ⟨t5, rfl, ?_, ?_, ?_, ?_, ?_, ?_, ?_, ?_⟩
      · rw [get_prev_set_next h5, get_prev_set_prev_self h4]
      · rw [get_next_set_next_ne h5 (Ne.symm hanchL),
          get_next_set_prev h4, get_next_set_prev h3,
          get_next_set_next_self h2, hm]
      · rw [get_next_set_next_self h5]
      · intro m2 hmm
        obtain rfl : m2 = m := by
          cases hmm
          rfl
        rw [get_prev_set_next h5, get_prev_set_prev_ne h4 hmL,
          get_prev_set_prev_self h3]
      · intro j
        rw [get_left_set_next h5, get_left_set_prev h4, get_left_set_prev h3,
          get_left_set_next h2]
      · intro j
        rw [get_right_set_next h5, get_right_set_prev h4,
          get_right_set_prev h3, get_right_set_next h2]
      · intro j
        rw [get_parent_set_next h5, get_parent_set_prev h4,
          get_parent_set_prev h3, get_parent_set_next h2]
      · intro j
        rw [get_color_set_next h5, get_color_set_prev h4,
          get_color_set_prev h3, get_color_set_next h2]
  unfold insert_after_place
  simp only [insertNode, Option.bind_eq_bind, Option.some_bind]
  rw [get_next_eq h0anchor]
  simp only [Option.some_bind]
  rw [get_right_eq h0anchor]
  simp only [Option.some_bind]
  cases hr : n.right with
  | none =>
    rw [if_pos rfl]
    obtain ⟨tA, hA⟩ : ∃ x,
        (Tree.mk (t.nodes ++ [some (Node.new v)]) t.root : Tree T).set_right
          anchor (some t.nodes.length) = some x :=
      ⟨_, set_right_eq h0anchor _⟩
    rw [hA]
    simp only [Option.some_bind]
    have hAL : (tA.get t.nodes.length).isSome = true := by
      rw [isSome_get_set_right hA]
      simp [h0new]
    obtain ⟨recAL, hrecAL⟩ := Option.isSome_iff_exists.mp hAL
    obtain ⟨tB, hB⟩ : ∃ x, tA.set_parent t.nodes.length (some anchor) = some x :=
      ⟨_, set_parent_eq hrecAL _⟩
    rw [hB]
    simp only [Option.some_bind]
    obtain ⟨t1, heq, hs1, hs2, hs3, hs4, hleft, hright, hparent, hcolor⟩ :=
      hsplice n.next rfl tB
        (by rw [isSome_get_set_parent hB]; exact hAL)
        (by
          rw [isSome_get_set_parent hB, isSome_get_set_right hA]
          simp [h0anchor])
        (by
          intro m hm
          rw [isSome_get_set_parent hB, isSome_get_set_right hA]
          exact hnextlive m hm)
    refine ⟨t1, heq, ?_, ?_, ?_, hs1, hs2, hs3, hs4⟩
    · rw [hcolor t.nodes.length, get_color_set_parent hB t.nodes.length,
        get_color_set_right hA t.nodes.length]
      exact hred0
    · intro _
      constructor
      · rw [hright anchor, get_right_set_parent hB anchor,
          get_right_set_right_self hA]
      · rw [hparent t.nodes.length, get_parent_set_parent_self hB]
    · intro rc hrc
      exact Option.noConfusion hrc
  | some rc =>
    rw [if_neg (by simp)]
    obtain ⟨s, ns, hs, hslive⟩ := next_live_of_right_child wf hn hr
    rw [hs]
    simp only [Option.some_bind]
    have hsL : s ≠ t.nodes.length := fresh_ne_live hslive
    have h0s : (Tree.mk (t.nodes ++ [some (Node.new v)]) t.root : Tree T).get s =
        some ns := by
      have := get_insertNode_of_get (Node.new v) hslive
      simpa [insertNode] using this
    obtain ⟨tA, hA⟩ : ∃ x,
        (Tree.mk (t.nodes ++ [some (Node.new v)]) t.root : Tree T).set_left
          s (some t.nodes.length) = some x :=
      ⟨_, set_left_eq h0s _⟩
    rw [hA]
    simp only [Option.some_bind]
    have hAL : (tA.get t.nodes.length).isSome = true := by
      rw [isSome_get_set_left hA]
      simp [h0new]
    obtain ⟨recAL, hrecAL⟩ := Option.isSome_iff_exists.mp hAL
    obtain ⟨tB, hB⟩ : ∃ x, tA.set_parent t.nodes.length (some s) = some x :=
      ⟨_, set_parent_eq hrecAL _⟩
    rw [hB]
    simp only [Option.some_bind]
    obtain ⟨t1, heq, hs1, hs2, hs3, hs4, hleft, hright, hparent, hcolor⟩ :=
      hsplice (some s) hs.symm tB
        (by rw [isSome_get_set_parent hB]; exact hAL)
        (by
          rw [isSome_get_set_parent hB, isSome_get_set_left hA]
          simp [h0anchor])
        (by
          intro m hm
          rw [isSome_get_set_parent hB, isSome_get_set_left hA]
          exact hnextlive m hm)
    refine ⟨t1, heq, ?_, ?_, ?_, hs1, hs ▸ hs2, hs3, fun m hm => hs4 m (hs.trans hm)⟩
    · rw [hcolor t.nodes.length, get_color_set_parent hB t.nodes.length,
        get_color_set_left hA t.nodes.length]
      exact hred0
    · intro habs
      exact Option.noConfusion habs
    · intro rc2 hrc2
      refine ⟨s, rfl, ?_, ?_⟩
      · rw [hleft s, get_left_set_parent hB s, get_left_set_left_self hA]
      · rw [hparent t.nodes.length, get_parent_set_parent_self hB]


theorem c6_before_aux {T : Type} {t : Tree T} {anchor : Nat} {n : Node T}
    (v : T) (wf : t.WF) (hn : t.get anchor = some n) :
    ∃ t1, t.insert_before_place anchor v = some (t.nodes.length, t1) ∧
      t1.get_color (some t.nodes.length) = Color.RED ∧
      (n.left = none →
        t1.get_left anchor = some (some t.nodes.length) ∧
        t1.get_parent t.nodes.length = some (some anchor)) ∧
      (∀ lc, n.left = some lc →
        ∃ s, n.prev = some s ∧
          t1.get_right s = some (some t.nodes.length) ∧
          t1.get_parent t.nodes.length = some (some s)) ∧
      t1.get_next t.nodes.length = some (some anchor) ∧
      t1.get_prev t.nodes.length = some n.prev ∧
      t1.get_prev anchor = some (some t.nodes.length) ∧
      (∀ m, n.prev = some m → t1.get_next m = some (some t.nodes.length)) := by
  have hanchL : anchor ≠ t.nodes.length := fresh_ne_live hn
  have h0new : ((t.insertNode (Node.new v)).2).get t.nodes.length =
      some (Node.new v) := get_insertNode_self t _
  have h0anchor : ((t.insertNode (Node.new v)).2).get anchor = some n :=
    get_insertNode_of_get _ hn
  simp only [insertNode] at h0new h0anchor
  have hred0 : ((Tree.mk (t.nodes ++ [some (Node.new v)]) t.root : Tree T)).get_color
      (some t.nodes.length) = Color.RED := by
    rw [get_color_eq h0new]
    rfl
  have hprevlive : ∀ m, n.prev = some m →
      (((Tree.mk (t.nodes ++ [some (Node.new v)]) t.root : Tree T)).get m).isSome = true := by
    intro m hm
    obtain ⟨nm, hnm, _⟩ := wf_prev_back wf hn hm
    have := get_insertNode_of_get (Node.new v) hnm
    simp only [insertNode] at this
    simp [this]
  have hprev_ne_L : ∀ m, n.prev = some m → m ≠ t.nodes.length := by
    intro m hm
    obtain ⟨nm, hnm, _⟩ := wf_prev_back wf hn hm
    exact fresh_ne_live hnm
  have hsplice_none : n.prev = none → ∀ te : Tree T,
      (te.get t.nodes.length).isSome = true →
      (te.get anchor).isSome = true →
      ∃ t1,
        ((te.set_prev t.nodes.length none).bind fun t2 =>
          ((pure t2 : Option (Tree T))).bind fun y =>
            (y.set_next t.nodes.length (some anchor)).bind fun t3 =>
              (t3.set_prev anchor (some t.nodes.length)).bind fun t4 =>
                pure (t.nodes.length, t4)) = some (t.nodes.length, t1) ∧
        t1.get_next t.nodes.length = some (some anchor) ∧
        t1.get_prev t.nodes.length = some n.prev ∧
        t1.get_prev anchor = some (some t.nodes.length) ∧
        (∀ j, t1.get_left j = te.get_left j) ∧
        (∀ j, t1.get_right j = te.get_right j) ∧
        (∀ j, t1.get_parent j = te.get_parent j) ∧
        (∀ j, t1.get_color (some j) = te.get_color (some j)) := by
    intro hm te hteL hteA
    obtain ⟨recL, hrecL⟩ := Option.isSome_iff_exists.mp hteL
    obtain ⟨t2, h2⟩ : ∃ x, te.set_prev t.nodes.length none = some x :=
      ⟨_, set_prev_eq hrecL _⟩
    rw [h2]
    simp only [Option.pure_def, Option.some_bind]
    have h2L : (t2.get t.nodes.length).isSome = true := by
      rw [isSome_get_set_prev h2]
      exact hteL
    obtain ⟨recL2, hrecL2⟩ := Option.isSome_iff_exists.mp h2L
    obtain ⟨t3, h3⟩ : ∃ x, t2.set_next t.nodes.length (some anchor) = some x :=
      ⟨_, set_next_eq hrecL2 _⟩
    rw [h3]
    simp only [Option.some_bind]
    have h3A : (t3.get anchor).isSome = true := by
      rw [isSome_get_set_next h3, isSome_get_set_prev h2]
      exact hteA
    obtain ⟨recA3, hrecA3⟩ := Option.isSome_iff_exists.mp h3A
    obtain ⟨t4, h4⟩ : ∃ x, t3.set_prev anchor (some t.nodes.length) = some x :=
      ⟨_, set_prev_eq hrecA3 _⟩
    rw [h4]
    simp only [Option.some_bind, Option.pure_def, Option.some_inj]
    refine ⟨t4, rfl, ?_, ?_, ?_, ?_, ?_, ?_, ?_⟩
    · rw [get_next_set_prev h4, get_next_set_next_self h3]
    · rw [get_prev_set_prev_ne h4 (Ne.symm hanchL), get_prev_set_next h3,
        get_prev_set_prev_self h2, hm]
    · rw [get_prev_set_prev_self h4]
    · intro j
      rw [get_left_set_prev h4, get_left_set_next h3, get_left_set_prev h2]
    · intro j
      rw [get_right_set_prev h4, get_right_set_next h3, get_right_set_prev h2]
    · intro j
      rw [get_parent_set_prev h4, get_parent_set_next h3, get_parent_set_prev h2]
    · intro j
      rw [get_color_set_prev h4, get_color_set_next h3, get_color_set_prev h2]
  have hsplice_some : ∀ m, n.prev = some m → ∀ te : Tree T,
      (te.get t.nodes.length).isSome = true →
      (te.get anchor).isSome = true →
      (te.get m).isSome = true →
      ∃ t1,
        ((te.set_prev t.nodes.length (some m)).bind fun t2 =>
          (t2.set_next m (some t.nodes.length)).bind fun y =>
            (y.set_next t.nodes.length (some anchor)).bind fun t3 =>
              (t3.set_prev anchor (some t.nodes.length)).bind fun t4 =>
                pure (t.nodes.length, t4)) = some (t.nodes.length, t1) ∧
        t1.get_next t.nodes.length = some (some anchor) ∧
        t1.get_prev t.nodes.length = some n.prev ∧
        t1.get_prev anchor = some (some t.nodes.length) ∧
        t1.get_next m = some (some t.nodes.length) ∧
        (∀ j, t1.get_left j = te.get_left j) ∧
        (∀ j, t1.get_right j = te.get_right j) ∧
        (∀ j, t1.get_parent j = te.get_parent j) ∧
        (∀ j, t1.get_color (some j) = te.get_color (some j)) := by
    intro m hm te hteL hteA hteM
    have hmL : m ≠ t.nodes.length := hprev_ne_L m hm
    obtain ⟨recL, hrecL⟩ := Option.isSome_iff_exists.mp hteL
    obtain ⟨t2, h2⟩ : ∃ x, te.set_prev t.nodes.length (some m) = some x :=
      ⟨_, set_prev_eq hrecL _⟩
    rw [h2]
    simp only [Option.some_bind]
    have h2m : (t2.get m).isSome = true := by
      rw [isSome_get_set_prev h2]
      exact hteM
    obtain ⟨recm, hrecm⟩ := Option.isSome_iff_exists.mp h2m
    obtain ⟨t3, h3⟩ : ∃ x, t2.set_next m (some t.nodes.length) = some x :=
      ⟨_, set_next_eq hrecm _⟩
    rw [h3]
    simp only [Option.some_bind]
    have h3L : (t3.get t.nodes.length).isSome = true := by
      rw [isSome_get_set_next h3, isSome_get_set_prev h2]
      exact hteL
    obtain ⟨recL3, hrecL3⟩ := Option.isSome_iff_exists.mp h3L
    obtain ⟨t4, h4⟩ : ∃ x, t3.set_next t.nodes.length (some anchor) = some x :=
      ⟨_, set_next_eq hrecL3 _⟩
    rw [h4]
    simp only [Option.some_bind]
    have h4A : (t4.get anchor).isSome = true := by
      rw [isSome_get_set_next h4, isSome_get_set_next h3, isSome_get_set_prev h2]
      exact hteA
    obtain ⟨recA4, hrecA4⟩ := Option.isSome_iff_exists.mp h4A
    obtain ⟨t5, h5⟩ : ∃ x, t4.set_prev anchor (some t.nodes.length) = some x :=
      ⟨_, set_prev_eq hrecA4 _⟩
    rw [h5]
    simp only [Option.some_bind, Option.pure_def, Option.some_inj]
    refine ⟨t5, rfl, ?_, ?_, ?_, ?_, ?_, ?_, ?_, ?_⟩
    · rw [get_next_set_prev h5, get_next_set_next_self h4]
    · rw [get_prev_set_prev_ne h5 (Ne.symm hanchL), get_prev_set_next h4,
        get_prev_set_next h3, get_prev_set_prev_self h2, hm]
    · rw [get_prev_set_prev_self h5]
    · rw [get_next_set_prev h5, get_next_set_next_ne h4 hmL,
        get_next_set_next_self h3]
    · intro j
      rw [get_left_set_prev h5, get_left_set_next h4, get_left_set_next h3,
        get_left_set_prev h2]
    · intro j
      rw [get_right_set_prev h5, get_right_set_next h4, get_right_set_next h3,
        get_right_set_prev h2]
    · intro j
      rw [get_parent_set_prev h5, get_parent_set_next h4, get_parent_set_next h3,
        get_parent_set_prev h2]
    · intro j
      rw [get_color_set_prev h5, get_color_set_next h4, get_color_set_next h3,
        get_color_set_prev h2]
  unfold insert_before_place
  simp only [insertNode, Option.bind_eq_bind, Option.some_bind]
  rw [get_prev_eq h0anchor]
  simp only [Option.some_bind]
  rw [get_left_eq h0anchor]
  simp only [Option.some_bind]
  cases hl : n.left with
  | none =>
    rw [if_pos rfl]
    obtain ⟨tA, hA⟩ : ∃ x,
        (Tree.mk (t.nodes ++ [some (Node.new v)]) t.root : Tree T).set_left
          anchor (some t.nodes.length) = some x :=
      ⟨_, set_left_eq h0anchor _⟩
    rw [hA]
    simp only [Option.some_bind]
    have hAL : (tA.get t.nodes.length).isSome = true := by
      rw [isSome_get_set_left hA]
      simp [h0new]
    obtain ⟨recAL, hrecAL⟩ := Option.isSome_iff_exists.mp hAL
    obtain ⟨tB, hB⟩ : ∃ x, tA.set_parent t.nodes.length (some anchor) = some x :=
      ⟨_, set_parent_eq hrecAL _⟩
    rw [hB]
    simp only [Option.some_bind]
    have hBL : (tB.get t.nodes.length).isSome = true := by
      rw [isSome_get_set_parent hB]
      exact hAL
    have hBA : (tB.get anchor).isSome = true := by
      rw [isSome_get_set_parent hB, isSome_get_set_left hA]
      simp [h0anchor]
    cases hp : n.prev with
    | none =>
      simp only [Option.pure_def, Option.some_bind]
      obtain ⟨t1, heq, hs1, hs2, hs3, hleft, hright, hparent, hcolor⟩ :=
        hsplice_none hp tB hBL hBA
      simp only [Option.pure_def, Option.some_bind] at heq
      refine ⟨t1, heq, ?_, ?_, ?_, hs1, hp ▸ hs2, hs3, ?_⟩
      · rw [hcolor t.nodes.length, get_color_set_parent hB t.nodes.length,
          get_color_set_left hA t.nodes.length]
        exact hred0
      · intro _
        constructor
        · rw [hleft anchor, get_left_set_parent hB anchor,
            get_left_set_left_self hA]
        · rw [hparent t.nodes.length, get_parent_set_parent_self hB]
      · intro lc hlc
        exact Option.noConfusion hlc
      · intro m hmm
        exact Option.noConfusion hmm
    | some m =>
      simp only [Option.some_bind]
      obtain ⟨t1, heq, hs1, hs2, hs3, hs4, hleft, hright, hparent, hcolor⟩ :=
        hsplice_some m hp tB hBL hBA
          (by
            rw [isSome_get_set_parent hB, isSome_get_set_left hA]
            exact hprevlive m hp)
      refine ⟨t1, heq, ?_, ?_, ?_, hs1, hp ▸ hs2, hs3, ?_⟩
      · rw [hcolor t.nodes.length, get_color_set_parent hB t.nodes.length,
          get_color_set_left hA t.nodes.length]
        exact hred0
      · intro _
        constructor
        · rw [hleft anchor, get_left_set_parent hB anchor,
            get_left_set_left_self hA]
        · rw [hparent t.nodes.length, get_parent_set_parent_self hB]
      · intro lc hlc
        exact Option.noConfusion hlc
      · intro m2 hmm
        obtain rfl : m2 = m := by
          cases hmm
          rfl
        exact hs4
  | some lc =>
    rw [if_neg (by simp)]
    obtain ⟨s, ns, hs, hslive, hnsnext⟩ := prev_live_of_left_child wf hn hl
    rw [hs]
    simp only [Option.some_bind]
    have hsL : s ≠ t.nodes.length := fresh_ne_live hslive
    have h0s : (Tree.mk (t.nodes ++ [some (Node.new v)]) t.root : Tree T).get s =
        some ns := by
      have := get_insertNode_of_get (Node.new v) hslive
      simpa [insertNode] using this
    obtain ⟨tA, hA⟩ : ∃ x,
        (Tree.mk (t.nodes ++ [some (Node.new v)]) t.root : Tree T).set_right
          s (some t.nodes.length) = some x :=
      ⟨_, set_right_eq h0s _⟩
    rw [hA]
    simp only [Option.some_bind]
    have hAL : (tA.get t.nodes.length).isSome = true := by
      rw [isSome_get_set_right hA]
      simp [h0new]
    obtain ⟨recAL, hrecAL⟩ := Option.isSome_iff_exists.mp hAL
    obtain ⟨tB, hB⟩ : ∃ x, tA.set_parent t.nodes.length (some s) = some x :=
      ⟨_, set_parent_eq hrecAL _⟩
    rw [hB]
    simp only [Option.some_bind]
    obtain ⟨t1, heq, hs1, hs2, hs3, hs4, hleft, hright, hparent, hcolor⟩ :=
      hsplice_some s hs tB
        (by rw [isSome_get_set_parent hB]; exact hAL)
        (by
          rw [isSome_get_set_parent hB, isSome_get_set_right hA]
          simp [h0anchor])
        (by
          rw [isSome_get_set_parent hB, isSome_get_set_right hA]
          exact hprevlive s hs)
    refine ⟨t1, heq, ?_, ?_, ?_, hs1, hs ▸ hs2, hs3, ?_⟩
    · rw [hcolor t.nodes.length, get_color_set_parent hB t.nodes.length,
        get_color_set_right hA t.nodes.length]
      exact hred0
    · intro habs
      exact Option.noConfusion habs
    · intro lc2 hlc2
      refine ⟨s, rfl, ?_, ?_⟩
      · rw [hright s, get_right_set_parent hB s, get_right_set_right_self hA]
      · rw [hparent t.nodes.length, get_parent_set_parent_self hB]
    · intro m2 hmm
      obtain rfl : m2 = s := by
        cases hmm
        rfl
      exact hs4


theorem insert_after_returns_fresh {T : Type} {t t1 t' : Tree T}
    {anchor k' fuel : Nat} {v : T}
    (hplace : t.insert_after_place anchor v = some (t.nodes.length, t1))
    (h : insert_after fuel t anchor v = some (k', t')) :
    k' = t.nodes.length := by
  unfold insert_after at h
  rw [hplace] at h
  simp only [Option.bind_eq_bind, Option.some_bind] at h
  cases hr : insert_rebalance fuel t1 t.nodes.length with
  | none => rw [hr] at h; simp at h
  | some t3 =>
    rw [hr] at h
    simp only [Option.some_bind, Option.pure_def, Option.some_inj] at h
    exact (Prod.mk.injEq .. ▸ h).1.symm

theorem insert_before_returns_fresh {T : Type} {t t1 t' : Tree T}
    {anchor k' fuel : Nat} {v : T}
    (hplace : t.insert_before_place anchor v = some (t.nodes.length, t1))
    (h : insert_before fuel t anchor v = some (k', t')) :
    k' = t.nodes.length := by
  unfold insert_before at h
  rw [hplace] at h
  simp only [Option.bind_eq_bind, Option.some_bind] at h
  cases hr : insert_rebalance fuel t1 t.nodes.length with
  | none => rw [hr] at h; simp at h
  | some t3 =>
    rw [hr] at h
    simp only [Option.some_bind, Option.pure_def, Option.some_inj] at h
    exact (Prod.mk.injEq .. ▸ h).1.symm



end Tree

namespace Validation

open Tree

theorem scenarioA_level_order :
    (do
      let t ← scenarioA
      let ks ← levelWalk (wfFuel t) t (match t.root with | some r => [r] | none => [])
      t.valsOf ks) = some [6, 4, 7, 2, 5, 1, 3] := by
  rfl

theorem scenarioA_order_chain :
    (do
      let t ← scenarioA
      let lm ← get_leftmost_node (wfFuel t) t
      let ks ← chainWalk (wfFuel t) t lm
      t.valsOf ks) = some [1, 2, 3, 4, 5, 6, 7] := by
  rfl

theorem scenarioA_black_height :
    (do
      let t ← scenarioA
      blackHeight (wfFuel t) t t.root) = some 3 := by
  rfl

theorem scenarioA_wf : (scenarioA.map checkTree) = some true := by
  rfl

theorem scenarioB_order_chain :
    (do
      let (t, _) ← scenarioB
      let lm ← get_leftmost_node (wfFuel t) t
      let ks ← chainWalk (wfFuel t) t lm
      t.valsOf ks) = some [2, 3, 6, 7, 8, 10, 11, 13, 18, 22, 26] := by
  rfl

theorem scenarioB_final_level_order :
    (do
      let t ← scenarioBAfterDeletes
      let ks ← levelWalk (wfFuel t) t (match t.root with | some r => [r] | none => [])
      t.valsOf ks) = some [13, 7, 26, 6, 8, 2] := by
  rfl

theorem scenarioB_final_order_chain :
    (do
      let t ← scenarioBAfterDeletes
      let lm ← get_leftmost_node (wfFuel t) t
      let ks ← chainWalk (wfFuel t) t lm
      t.valsOf ks) = some [2, 6, 7, 8, 13, 26] := by
  rfl

theorem scenarioB_final_black_height :
    (do
      let t ← scenarioBAfterDeletes
      blackHeight (wfFuel t) t t.root) = some 3 := by
  rfl

end Validation

namespace Claims

open Tree

/-- C1: refuted on the code.  Deleting a root that has exactly one child goes
through the `replacement`-and-root branch of `delete_node`, which never calls
`update_order_for_deletion`: the surviving node keeps `next = ` the removed
handle.  Following `next` from the leftmost node then runs into a dead handle
instead of visiting exactly the live nodes, so the order-chain walk no longer
equals the in-order walk `[1]`. -/
theorem c1_delete_root_with_one_child_breaks_order_chain :
    (∀ fuel : Nat,
      (do
        let t ← c1_before
        delete_node fuel t 0) = some c1_after) ∧
    c1_after.liveKeys = [1] ∧
    inorderWalk (wfFuel c1_after) c1_after c1_after.root = some [1] ∧
    c1_after.get_next 1 = some (some 0) ∧
    c1_after.get 0 = none ∧
    (do
      let lm ← get_leftmost_node (wfFuel c1_after) c1_after
      chainWalk (wfFuel c1_after) c1_after lm) = none := by
  exact ⟨fun _ => rfl, rfl, rfl, rfl, rfl, rfl⟩

/-- C3: refuted on the code.  Starting from the empty tree, build two nodes
and delete them one at a time in the order root-first: the first delete
succeeds (leaving handle 1 as the only live node), but the second
`delete_node` fails for every fuel: it reaches `update_order_for_deletion`,
which reads `next` of the node being deleted, gets the dangling removed
handle 0, and `set_prev` on that dead handle is the `unwrap` panic.  The tree
never becomes empty (`has_root` is still true at the failure). -/
theorem c3_exhaustive_deletion_fails :
    (∃ t : Tree Nat, c3_mid = some t ∧
      t.liveKeys = [1] ∧ t.has_root = true ∧
      (∀ fuel : Nat, delete_node fuel t 1 = none)) := by
  refine ⟨c1_after, rfl, rfl, rfl, fun _ => rfl⟩

/-- C4: `create_root` on a tree that already has a root fails (the
`debug_assert!(!self.has_root())` fires) and the failure leaves the tree
exactly as it was: the assertion precedes every store mutation. -/
theorem c4_create_root_on_nonempty_fails_without_mutation {T : Type}
    (t : Tree T) (v : T) (h : t.has_root = true) :
    t.create_root v = Except.error t := by
  simp [Tree.create_root, h]

/-- Witness: a concrete one-node tree; `create_root` on it fails and returns
the tree unchanged. -/
theorem c4_witness :
    (Tree.has_root (T := Nat)
        { nodes := [some { parent := none, left := none, right := none,
                           contents := 7, prev := none, next := none,
                           color := Color.BLACK }],
          root := some 0 } = true) ∧
    Tree.create_root
        { nodes := [some { parent := none, left := none, right := none,
                           contents := 7, prev := none, next := none,
                           color := Color.BLACK }],
          root := some 0 } 9 =
      Except.error
        { nodes := [some { parent := none, left := none, right := none,
                           contents := 7, prev := none, next := none,
                           color := Color.BLACK }],
          root := some 0 } :=
  ⟨rfl, c4_create_root_on_nonempty_fails_without_mutation _ 9 rfl⟩

/-- C10: `get_color` returns BLACK for a `none` argument and for a handle that
is not live in the store, and never fails; every other accessor
(`get_left`, `get_right`, `get_parent`, `get_prev`, `get_next`,
`get_contents`) fails on the same non-live handle. -/
theorem c10_get_color_total_at_boundary {T : Type} (t : Tree T) (k : Nat)
    (h : t.get k = none) :
    t.get_color none = Color.BLACK ∧
    t.get_color (some k) = Color.BLACK ∧
    t.get_left k = none ∧
    t.get_right k = none ∧
    t.get_parent k = none ∧
    t.get_prev k = none ∧
    t.get_next k = none ∧
    t.get_contents k = none := by
  simp [Tree.get_color, Tree.get_left, Tree.get_right, Tree.get_parent,
    Tree.get_prev, Tree.get_next, Tree.get_contents, h]

theorem c10_witness :
    c10_store.get 0 = none ∧
    (c10_store.get_color none = Color.BLACK ∧
     c10_store.get_color (some 0) = Color.BLACK ∧
     c10_store.get_left 0 = none ∧
     c10_store.get_right 0 = none ∧
     c10_store.get_parent 0 = none ∧
     c10_store.get_prev 0 = none ∧
     c10_store.get_next 0 = none ∧
     c10_store.get_contents 0 = none) :=
  ⟨rfl, c10_get_color_total_at_boundary c10_store 0 rfl⟩

/-- C5: for every tree satisfying the invariants, deleting a non-root node
that has exactly one child is safe: the lone child is necessarily RED (the nil
side of the node has black height 1, which a BLACK child cannot match), so
`both_black` is false and `delete_node` takes the recolor branch instead of the
post-removal `fix_double_black` call.  The deletion succeeds for **every**
fuel value, including fuel 0 — and since `fix_double_black` at fuel 0 always
fails, this also shows the fixup is never invoked in this branch. -/
theorem c5_one_child_nonroot_delete_never_fails {T : Type} (t : Tree T) (node : Nat) (n : Node T)
    (wf : t.WF) (hn : t.get node = some n) (hnotroot : t.root ≠ some node)
    (hone : (n.left = none ∧ n.right.isSome) ∨
            (n.left.isSome ∧ n.right = none)) :
    ∃ c nc, (n.left = some c ∨ n.right = some c) ∧ t.get c = some nc ∧
      nc.color = Color.RED ∧
      ∀ fuel : Nat, (delete_node fuel t node).isSome := by
  -- name the single child c, on whichever side it is
  obtain ⟨c, hcside, hrep⟩ :
      ∃ c, (n.left = some c ∨ n.right = some c) ∧
        t.get_replacement_node node = some (some c) := by
    rcases hone with ⟨hl, hrs⟩ | ⟨hls, hr⟩
    · obtain ⟨c, hr⟩ := Option.isSome_iff_exists.mp hrs
      refine ⟨c, Or.inr hr, ?_⟩
      simp [get_replacement_node, get_left_eq hn, get_right_eq hn, hl, hr]
    · obtain ⟨c, hl⟩ := Option.isSome_iff_exists.mp hls
      refine ⟨c, Or.inl hl, ?_⟩
      simp [get_replacement_node, get_left_eq hn, get_right_eq hn, hl, hr]
  obtain ⟨nc, hc, hcpar⟩ : ∃ nc, t.get c = some nc ∧ nc.parent = some node := by
    rcases hcside with hcl | hcr
    · exact wf_left_back wf hn hcl
    · exact wf_right_back wf hn hcr
  have hred : nc.color = Color.RED := by
    apply single_child_is_red wf hn hc
    rcases hone with ⟨hl, hrs⟩ | ⟨hls, hr⟩
    · rcases hcside with hcl | hcr
      · rw [hcl] at hl; cases hl
      · exact Or.inl ⟨hl, hcr⟩
    · rcases hcside with hcl | hcr
      · exact Or.inr ⟨hcl, hr⟩
      · rw [hcr] at hr; cases hr
  refine ⟨c, nc, hcside, hc, hred, ?_⟩
  intro fuel
  -- node is not the root, so it has a live parent
  obtain ⟨p, hnp⟩ : ∃ p, n.parent = some p := by
    cases hnpc : n.parent with
    | none => exact absurd (wf_root_of_parent_none wf hn hnpc) hnotroot
    | some p => exact ⟨p, rfl⟩
  obtain ⟨np, hp, hslot⟩ := wf_parent_back wf hn hnp
  have hcnode : c ≠ node := child_ne_self wf hn hcside
  have hpnode : p ≠ node := by
    intro he
    subst he
    rw [hn] at hp
    cases hp
    exact absurd rfl (child_ne_self wf hn hslot)
  -- the two-children test is false
  have htwo : (do
      let l ← t.get_left node
      match l with
      | none => pure false
      | some _ => do
        let r ← t.get_right node
        pure r.isSome) = some false := by
    rcases hone with ⟨hl, _⟩ | ⟨hls, hr⟩
    · simp [get_left_eq hn, hl]
    · obtain ⟨lc, hl⟩ := Option.isSome_iff_exists.mp hls
      simp [get_left_eq hn, get_right_eq hn, hl, hr]
  -- both_black is false because the lone child is RED
  have hbb : ((t.get_color (some node) == Color.BLACK) &&
      (t.get_color (some c) == Color.BLACK)) = false := by
    rw [get_color_eq hc, hred]
    simp
  -- the node type lookup succeeds
  have hnt : t.get_node_type node =
      some (if np.left = some node then NodeType.LeftChild
            else NodeType.RightChild) := by
    simp only [get_node_type, get_parent_eq hn, Option.some_bind, hnp,
      get_left_eq hp, Option.bind_eq_bind]
    split <;> simp
  have hcp : c ≠ p := by
    intro he
    subst he
    rw [hc] at hp
    cases hp
    exact child_antisymm wf hn hc hcside (by
      rcases hslot with hs | hs
      · exact Or.inl hs
      · exact Or.inr hs)
  have htail : ∀ t1 : Tree T,
      (∀ j, (t.get j).isSome = true → (t1.get j).isSome = true) →
      t1.get c = some nc → t1.get node = some n →
      ((t1.set_parent c (some p)).bind fun t2 =>
        (t2.update_order_for_deletion node).bind fun t3 =>
          if false = true then fix_double_black fuel (t3.remove node) node
          else (t3.remove node).set_color c Color.BLACK).isSome = true := by
    intro t1 hlive1 hc1 hnode1
    rw [set_parent_eq hc1]
    simp only [Option.some_bind]
    obtain ⟨t3, ht3, hlive3⟩ :
        ∃ t3, (t1.updNode c { nc with parent := some p
            }).update_order_for_deletion node = some t3 ∧
          ∀ j, (((t1.updNode c { nc with parent := some p }).get j)).isSome →
            (t3.get j).isSome := by
      apply update_order_isSome
      · rw [get_updNode_ne c node _ hcnode]
        exact hnode1
      · intro m hm
        obtain ⟨nm, hnm, _⟩ := wf_next_back wf hn hm
        exact get_updNode_isSome _ _ (hlive1 m (by simp [hnm]))
      · intro m hm
        obtain ⟨nm, hnm, _⟩ := wf_prev_back wf hn hm
        exact get_updNode_isSome _ _ (hlive1 m (by simp [hnm]))
    rw [ht3]
    simp only [Option.some_bind, Bool.false_eq_true, if_false]
    apply set_color_isSome
    rw [get_remove_ne (Ne.symm hcnode)]
    exact hlive3 c (by simp [get_updNode_self { nc with parent := some p } hc1])
  -- now run the deletion
  unfold delete_node
  rw [get_left_eq hn]
  simp only [Option.bind_eq_bind, Option.some_bind]
  rcases hone with ⟨hl, hrs⟩ | ⟨hls, hr⟩
  on_goal 2 =>
    obtain ⟨lc, hl⟩ := Option.isSome_iff_exists.mp hls
    simp only [hl, Option.bind_eq_bind, Option.some_bind, Option.pure_def]
    rw [get_right_eq hn]
    simp only [Option.bind_eq_bind, Option.some_bind, hr, Option.isSome_none]
  on_goal 1 =>
    simp only [hl, Option.bind_eq_bind, Option.some_bind, Option.pure_def]
  all_goals
  simp only [Option.bind_eq_bind, Option.some_bind, Bool.false_eq_true, if_false]
  rw [hrep]
  simp only [Option.bind_eq_bind, Option.some_bind]
  rw [hbb, if_neg hnotroot, get_parent_eq hn]
  simp only [Option.bind_eq_bind, Option.some_bind]
  rw [hnp, hnt]
  simp only [Option.bind_eq_bind, Option.some_bind]
  by_cases hsl : np.left = some node
  · rw [if_pos hsl]
    simp only []
    rw [set_left_eq hp]
    simp only [Option.bind_eq_bind, Option.some_bind]
    refine htail _ (fun j h => get_updNode_isSome _ _ h) ?_ ?_
    · rw [get_updNode_ne p c _ (Ne.symm hcp)]
      exact hc
    · rw [get_updNode_ne p node _ hpnode]
      exact hn
  · rw [if_neg hsl]
    simp only []
    rw [set_right_eq hp]
    simp only [Option.bind_eq_bind, Option.some_bind]
    refine htail _ (fun j h => get_updNode_isSome _ _ h) ?_ ?_
    · rw [get_updNode_ne p c _ (Ne.symm hcp)]
      exact hc
    · rw [get_updNode_ne p node _ hpnode]
      exact hn


/-- Witness for C5 at a concrete input: `c5_tree` satisfies the invariants and
handle 1 is a non-root node with exactly one child; the theorem applies. -/
theorem c5_witness :
    c5_tree.WF ∧ c5_tree.get 1 = some c5_node ∧ c5_tree.root ≠ some 1 ∧
    (∃ c nc, (c5_node.left = some c ∨ c5_node.right = some c) ∧
      c5_tree.get c = some nc ∧ nc.color = Color.RED ∧
      ∀ fuel : Nat, (delete_node fuel c5_tree 1).isSome = true) :=
  ⟨by decide, rfl, by decide,
    c5_one_child_nonroot_delete_never_fails c5_tree 1 c5_node (by decide) rfl
      (by decide) (Or.inr ⟨rfl, rfl⟩)⟩


/-- C6: insertion placement and splice.  For a live anchor in a tree
satisfying the invariants: the new node is allocated RED at the fresh handle
`t.nodes.length`; `insert_after` attaches it as the anchor's right child when
that slot is empty and otherwise as the left child of the anchor's
order-successor (`next`), and splices the order links so the new node sits
exactly between the anchor and the anchor's former `next` neighbour
(`prev new = anchor`, `next new = ` former next, `next anchor = new`, and the
former neighbour's `prev` points back at the new node); symmetrically for
`insert_before` with the left child / order-predecessor; and whenever the full
`insert_after`/`insert_before` call (placement plus rebalance) returns, the
returned handle is the new node's. -/
theorem c6_insert_placement_and_splice {T : Type} (t : Tree T) (anchor : Nat)
    (v : T) (n : Node T) (wf : t.WF) (hn : t.get anchor = some n) :
    (∃ t1, t.insert_after_place anchor v = some (t.nodes.length, t1) ∧
      t1.get_color (some t.nodes.length) = Color.RED ∧
      (n.right = none →
        t1.get_right anchor = some (some t.nodes.length) ∧
        t1.get_parent t.nodes.length = some (some anchor)) ∧
      (∀ rc, n.right = some rc →
        ∃ s, n.next = some s ∧
          t1.get_left s = some (some t.nodes.length) ∧
          t1.get_parent t.nodes.length = some (some s)) ∧
      t1.get_prev t.nodes.length = some (some anchor) ∧
      t1.get_next t.nodes.length = some n.next ∧
      t1.get_next anchor = some (some t.nodes.length) ∧
      (∀ m, n.next = some m → t1.get_prev m = some (some t.nodes.length))) ∧
    (∀ fuel k' t', insert_after fuel t anchor v = some (k', t') →
      k' = t.nodes.length) ∧
    (∃ t1, t.insert_before_place anchor v = some (t.nodes.length, t1) ∧
      t1.get_color (some t.nodes.length) = Color.RED ∧
      (n.left = none →
        t1.get_left anchor = some (some t.nodes.length) ∧
        t1.get_parent t.nodes.length = some (some anchor)) ∧
      (∀ lc, n.left = some lc →
        ∃ s, n.prev = some s ∧
          t1.get_right s = some (some t.nodes.length) ∧
          t1.get_parent t.nodes.length = some (some s)) ∧
      t1.get_next t.nodes.length = some (some anchor) ∧
      t1.get_prev t.nodes.length = some n.prev ∧
      t1.get_prev anchor = some (some t.nodes.length) ∧
      (∀ m, n.prev = some m → t1.get_next m = some (some t.nodes.length))) ∧
    (∀ fuel k' t', insert_before fuel t anchor v = some (k', t') →
      k' = t.nodes.length) := by
  obtain ⟨t1a, hplaceA, hA⟩ := c6_after_aux v wf hn
  obtain ⟨t1b, hplaceB, hB⟩ := c6_before_aux v wf hn
  refine ⟨⟨t1a, hplaceA, hA⟩, ?_, ⟨t1b, hplaceB, hB⟩, ?_⟩
  · intro fuel k' t' h
    exact insert_after_returns_fresh hplaceA h
  · intro fuel k' t' h
    exact insert_before_returns_fresh hplaceB h


/-- Witness for C6 at a concrete input: the one-node tree satisfies the
invariants, handle 0 is live, and both placements succeed returning the fresh
handle. -/
theorem c6_witness :
    c6_tree.WF ∧ c6_tree.get 0 = some c6_node ∧
    (∃ t1, c6_tree.insert_after_place 0 9 = some (c6_tree.nodes.length, t1)) ∧
    (∃ t1, c6_tree.insert_before_place 0 9 = some (c6_tree.nodes.length, t1)) := by
  obtain ⟨⟨t1, h1, -⟩, -, ⟨t2, h2, -⟩, -⟩ :=
    c6_insert_placement_and_splice c6_tree 0 9 c6_node (by decide) rfl
  exact ⟨by decide, rfl, ⟨t1, h1⟩, ⟨t2, h2⟩⟩

end Claims

end BST
